import Mathlib

/-!
Verification development for the KG-perturbator repository.

The Python sources (kg_perturbator/utils.py, perturbator.py, conversion.py,
llm_integrations/*) are shallowly embedded below:
* a networkx `MultiDiGraph` becomes a `Graph`: an insertion-ordered list of
  nodes (identifier plus attribute bag) and an insertion-ordered list of
  keyed edges;
* Python dict attribute bags become insertion-ordered association lists;
* the `random` module's stream is modelled as a deterministic LCG state
  threaded through the operators; `random.sample` becomes `sampleAux`
  (repeated removal of an element at a pseudo-random index);
* LLM providers become records of functions returning `Option String`,
  `none` standing for a caught provider exception (which the base wrapper
  turns into the empty string);
* a JSON input object becomes `KGJson`, with `Option` fields for possibly
  missing keys; a Python `KeyError` becomes `Except.error`.
-/

/-! ### Decimal rendering of naturals (Python `str(i)` inside f-strings) -/

def decChar (d : Nat) : Char := Char.ofNat (48 + d)

/-- Little-endian decimal digits, fuelled so that the kernel can reduce it
on concrete inputs. -/
def digitsAux : Nat → Nat → List Nat
  | 0, _ => []
  | fuel + 1, n => if n = 0 then [] else n % 10 :: digitsAux fuel (n / 10)

def natDigits (n : Nat) : List Nat := digitsAux n n

theorem digitsAux_eq (fuel n : Nat) (h : n ≤ fuel) : digitsAux fuel n = Nat.digits 10 n := by
  induction fuel generalizing n with
  | zero =>
    interval_cases n
    simp [digitsAux]
  | succ f ih =>
    by_cases hn : n = 0
    · simp [digitsAux, hn]
    · have h10 : n / 10 ≤ f := by
        have : n / 10 < n := Nat.div_lt_self (Nat.pos_of_ne_zero hn) (by norm_num)
        omega
      rw [digitsAux, if_neg hn, ih _ h10, Nat.digits_def' (by norm_num : 1 < 10) (Nat.pos_of_ne_zero hn)]

theorem natDigits_eq (n : Nat) : natDigits n = Nat.digits 10 n := digitsAux_eq n n le_rfl

/-- Decimal string of a natural number, as Python `str` produces it. -/
def natStr (n : Nat) : String :=
  if n = 0 then "0" else String.mk ((natDigits n).reverse.map decChar)

theorem decChar_inj_lt : ∀ a < 10, ∀ b < 10, decChar a = decChar b → a = b := by decide

theorem decChar_ne_zero : ∀ d < 10, d ≠ 0 → decChar d ≠ decChar 0 := by decide

theorem map_decChar_inj : ∀ (l₁ l₂ : List Nat), (∀ d ∈ l₁, d < 10) → (∀ d ∈ l₂, d < 10) →
    l₁.map decChar = l₂.map decChar → l₁ = l₂ := by
  intro l₁
  induction l₁ with
  | nil => intro l₂ _ _ h; cases l₂ <;> simp_all
  | cons a t ih =>
    intro l₂ h₁ h₂ h
    cases l₂ with
    | nil => simp at h
    | cons b t₂ =>
      simp only [List.map_cons, List.cons.injEq] at h
      have ha : a = b := decChar_inj_lt a (h₁ a (by simp)) b (h₂ b (by simp)) h.1
      have ht : t = t₂ := ih t₂ (fun d hd => h₁ d (by simp [hd])) (fun d hd => h₂ d (by simp [hd])) h.2
      rw [ha, ht]

theorem natStr_inj (a b : Nat) (h : natStr a = natStr b) : a = b := by
  unfold natStr at h
  simp only [natDigits_eq] at h
  by_cases ha : a = 0 <;> by_cases hb : b = 0
  · omega
  · exfalso
    simp only [ha, if_pos rfl, if_neg hb] at h
    have hne : Nat.digits 10 b ≠ [] := Nat.digits_ne_nil_iff_ne_zero.mpr hb
    have hlast := Nat.getLast_digit_ne_zero 10 hb
    obtain ⟨d, l, hd⟩ : ∃ d l, (Nat.digits 10 b).reverse = d :: l := by
      cases hrev : (Nat.digits 10 b).reverse with
      | nil => exact absurd (by simpa using hrev) hne
      | cons d l => exact ⟨d, l, rfl⟩
    have hd0 : d ≠ 0 := by
      have : d = (Nat.digits 10 b).getLast hne := by
        have := congrArg List.head? hd
        exact (by simpa [List.head?_reverse, List.getLast?_eq_getLast _ hne] using this : _ = d).symm
      rw [this]; exact hlast
    have hdlt : d < 10 := by
      have : d ∈ Nat.digits 10 b := by
        have : d ∈ (Nat.digits 10 b).reverse := by rw [hd]; simp
        simpa using this
      exact Nat.digits_lt_base (by norm_num) this
    rw [hd] at h
    have : ('0' : Char) = decChar d := by
      have := congrArg String.data h
      simpa [decChar] using congrArg List.head? this
    exact decChar_ne_zero d hdlt hd0 (by simpa [decChar] using this.symm)
  · exfalso
    simp only [hb, if_pos rfl, if_neg ha] at h
    have hne : Nat.digits 10 a ≠ [] := Nat.digits_ne_nil_iff_ne_zero.mpr ha
    have hlast := Nat.getLast_digit_ne_zero 10 ha
    obtain ⟨d, l, hd⟩ : ∃ d l, (Nat.digits 10 a).reverse = d :: l := by
      cases hrev : (Nat.digits 10 a).reverse with
      | nil => exact absurd (by simpa using hrev) hne
      | cons d l => exact ⟨d, l, rfl⟩
    have hd0 : d ≠ 0 := by
      have : d = (Nat.digits 10 a).getLast hne := by
        have := congrArg List.head? hd
        exact (by simpa [List.head?_reverse, List.getLast?_eq_getLast _ hne] using this : _ = d).symm
      rw [this]; exact hlast
    have hdlt : d < 10 := by
      have : d ∈ Nat.digits 10 a := by
        have : d ∈ (Nat.digits 10 a).reverse := by rw [hd]; simp
        simpa using this
      exact Nat.digits_lt_base (by norm_num) this
    rw [hd] at h
    have : ('0' : Char) = decChar d := by
      have := congrArg String.data h
      simpa [decChar] using congrArg List.head? this.symm
    exact decChar_ne_zero d hdlt hd0 (by simpa [decChar] using this.symm)
  · simp only [if_neg ha, if_neg hb] at h
    have hdig : (Nat.digits 10 a).reverse.map decChar = (Nat.digits 10 b).reverse.map decChar := by
      have := congrArg String.data h
      simpa using this
    have : (Nat.digits 10 a).reverse = (Nat.digits 10 b).reverse := by
      refine map_decChar_inj _ _ ?_ ?_ hdig
      · intro d hd; exact Nat.digits_lt_base (by norm_num) (by simpa using hd)
      · intro d hd; exact Nat.digits_lt_base (by norm_num) (by simpa using hd)
    have hdig2 : Nat.digits 10 a = Nat.digits 10 b := by
      have := congrArg List.reverse this
      simpa using this
    have := congrArg (Nat.ofDigits 10) hdig2
    simpa [Nat.ofDigits_digits] using this

/-- Identifier `f"e{i}"` used by `reassign_entity_ids` (and by the input
convention `e1..en`). -/
def eId (i : Nat) : String := "e" ++ natStr i

/-- Identifier `f"rand_{i}"` minted by `generate_unique_node_id`. -/
def randId (i : Nat) : String := "rand_" ++ natStr i

theorem string_data_inj (s t : String) (h : s.data = t.data) : s = t := by
  cases s; cases t; exact congrArg String.mk h

theorem eId_inj (a b : Nat) (h : eId a = eId b) : a = b := by
  unfold eId at h
  have hdata := congrArg String.data h
  simp only [String.data_append] at hdata
  have : (natStr a).data = (natStr b).data := by simpa using hdata
  exact natStr_inj a b (string_data_inj _ _ this)

theorem randId_inj (a b : Nat) (h : randId a = randId b) : a = b := by
  unfold randId at h
  have hdata := congrArg String.data h
  simp only [String.data_append] at hdata
  have : (natStr a).data = (natStr b).data := by simpa using hdata
  exact natStr_inj a b (string_data_inj _ _ this)

theorem eId_ne_randId (a b : Nat) : eId a ≠ randId b := by
  intro h
  have hdata := congrArg String.data h
  simp only [eId, randId, String.data_append] at hdata
  have := congrArg List.head? hdata
  simp at this

/-! ### Attribute bags (Python dicts, insertion ordered) -/

/-- Attribute value in an entity/relation attribute bag.  The repository only
distinguishes strings and lists of strings (name/description handling). -/
inductive AttrVal
  | str (s : String)
  | strList (l : List String)
  deriving DecidableEq, Repr

/-- Python truthiness of an attribute value (`if attrs["name"]:`). -/
def AttrVal.truthy : AttrVal → Bool
  | .str s => s ≠ ""
  | .strList l => ¬ l.isEmpty

abbrev Attrs := List (String × AttrVal)

/-- `key in dict` -/
def attrsHasKey (a : Attrs) (k : String) : Bool := a.any (fun p => p.1 == k)

/-- `dict.get(key)` -/
def attrsGet (a : Attrs) (k : String) : Option AttrVal :=
  (a.find? (fun p => p.1 == k)).map (fun p => p.2)

/-- `dict[key] = v`: update in place (keeping position) or append. -/
def attrsSet (a : Attrs) (k : String) (v : AttrVal) : Attrs :=
  if attrsHasKey a k then a.map (fun p => if p.1 = k then (k, v) else p)
  else a ++ [(k, v)]

/-- `dict.update(b)` -/
def attrsUpdate (a b : Attrs) : Attrs := b.foldl (fun acc p => attrsSet acc p.1 p.2) a

/-! ### The graph model (networkx MultiDiGraph) -/

structure Edge where
  src : String
  tgt : String
  key : Nat
  attrs : Attrs
  deriving DecidableEq, Repr

structure Graph where
  nodes : List (String × Attrs)
  edges : List Edge
  deriving DecidableEq, Repr

def Graph.nodeIds (G : Graph) : List String := G.nodes.map (fun p => p.1)

def Graph.hasNode (G : Graph) (id : String) : Bool := G.nodes.any (fun p => p.1 == id)

/-- `G.nodes[id]` (attribute bag of a node; `[]` if absent, never used so). -/
def Graph.nodeAttrs (G : Graph) (id : String) : Attrs :=
  ((G.nodes.find? (fun p => p.1 == id)).map (fun p => p.2)).getD []

/-- `G.add_node(id, **attrs)`: on an existing node the attribute bag is
updated, otherwise the node is appended. -/
def Graph.addNode (G : Graph) (id : String) (attrs : Attrs) : Graph :=
  if G.hasNode id then
    { G with nodes := G.nodes.map (fun p => if p.1 = id then (p.1, attrsUpdate p.2 attrs) else p) }
  else { G with nodes := G.nodes ++ [(id, attrs)] }

/-- `G.remove_node(id)`: deletes the node and every incident edge. -/
def Graph.removeNode (G : Graph) (id : String) : Graph :=
  { nodes := G.nodes.filter (fun p => p.1 ≠ id),
    edges := G.edges.filter (fun e => e.src ≠ id ∧ e.tgt ≠ id) }

/-- `G.remove_nodes_from(ids)` -/
def Graph.removeNodesFrom (G : Graph) (ids : List String) : Graph :=
  { nodes := G.nodes.filter (fun p => p.1 ∉ ids),
    edges := G.edges.filter (fun e => e.src ∉ ids ∧ e.tgt ∉ ids) }

/-- networkx `new_edge_key`: start at the number of parallel edges and scan
upward for an unused key. -/
def findFreeKey (keys : List Nat) : Nat → Nat → Nat
  | k, 0 => k
  | k, fuel + 1 => if keys.contains k then findFreeKey keys (k + 1) fuel else k

def Graph.newEdgeKey (G : Graph) (u v : String) : Nat :=
  let keys := (G.edges.filter (fun e => e.src == u && e.tgt == v)).map (fun e => e.key)
  findFreeKey keys keys.length (keys.length + 1)

/-- An endpoint of `add_edge` that is not yet a node is silently created as a
fresh attribute-less node. -/
def Graph.insNode (G : Graph) (id : String) : Graph :=
  if G.hasNode id then G else { G with nodes := G.nodes ++ [(id, [])] }

/-- `G.add_edge(u, v, key?, **attrs)`: missing endpoints are silently created
as fresh nodes; an existing `(u, v, key)` edge has its attributes updated in
place, otherwise the edge is appended with the given or a fresh key. -/
def Graph.addEdge (G : Graph) (u v : String) (key? : Option Nat) (attrs : Attrs) : Graph :=
  let G2 := (G.insNode u).insNode v
  let key := match key? with
    | some k => k
    | none => G2.newEdgeKey u v
  if G2.edges.any (fun e => e.src == u && e.tgt == v && e.key == key) then
    { G2 with edges := G2.edges.map (fun e =>
        if e.src = u ∧ e.tgt = v ∧ e.key = key then { e with attrs := attrsUpdate e.attrs attrs } else e) }
  else { G2 with edges := G2.edges ++ [{ src := u, tgt := v, key := key, attrs := attrs }] }

/-- `G.remove_edge(u, v)` with no key: `popitem()` deletes the most recently
inserted parallel edge between `u` and `v`; a missing pair is ignored
(`remove_edges_from` catches the error). -/
def Graph.removeLastEdge (G : Graph) (u v : String) : Graph :=
  { G with edges := (G.edges.reverse.eraseP (fun e => e.src == u && e.tgt == v)).reverse }

/-- Rewrite one node's attribute bag in place. -/
def Graph.updateNode (G : Graph) (id : String) (f : Attrs → Attrs) : Graph :=
  { G with nodes := G.nodes.map (fun p => if p.1 = id then (p.1, f p.2) else p) }

/-- Rewrite one edge's attribute bag in place. -/
def Graph.updateEdge (G : Graph) (u v : String) (k : Nat) (f : Attrs → Attrs) : Graph :=
  { G with edges := G.edges.map (fun e =>
      if e.src = u ∧ e.tgt = v ∧ e.key = k then { e with attrs := f e.attrs } else e) }

/-! ### Pseudo-random stream (`random` module, seeded once by the CLI) -/

/-- One step of the deterministic pseudo-random stream.  The concrete update
function is irrelevant to every claim; only determinism matters. -/
def lcgStep (s : Nat) : Nat := (s * 1103515245 + 12345) % 2147483648

/-- Model of `random.sample(xs, k)`: repeatedly pick a pseudo-random index,
take that element out, recurse.  Selects `min k xs.length` elements without
replacement (the callers clamp `k` so that `k ≤ xs.length`). -/
def sampleAux {α : Type} : Nat → List α → Nat → List α × Nat
  | s, _, 0 => ([], s)
  | s, [], _ + 1 => ([], s)
  | s, x :: xs, k + 1 =>
    let s1 := lcgStep s
    let i := s1 % (x :: xs).length
    let y := (x :: xs).getD i x
    let rest := (x :: xs).eraseIdx i
    let p := sampleAux s1 rest k
    (y :: p.1, p.2)

/-! ### utils.py -/

/-- Fuelled version of the `while True` loop of `generate_unique_node_id`:
try `rand_i`, `rand_(i+1)`, ... until an identifier not in the graph is
found.  `G.nodes.length + 1` fuel always suffices (pigeonhole). -/
def genUniqueAux (G : Graph) : Nat → Nat → String
  | i, 0 => randId i
  | i, fuel + 1 => if G.hasNode (randId i) then genUniqueAux G (i + 1) fuel else randId i

/-- `generate_unique_node_id` -/
def generate_unique_node_id (G : Graph) : String :=
  genUniqueAux G 1 (G.nodes.length + 1)

/-- The `for original_id in surviving_entities` loop of `reassign_entity_ids`:
assign sequential identifiers `e c, e (c+1), ...`. -/
def mkMapping : List String → Nat → List (String × String)
  | [], _ => []
  | id :: rest, c => (id, eId c) :: mkMapping rest (c + 1)

/-- `reassign_entity_ids` -/
def reassign_entity_ids (G : Graph) (removed_entities added_entities : List String)
    (n_nodes : Nat) : Graph × List (String × String) :=
  let current_nodes := G.nodeIds
  let surviving_entities := current_nodes.filter
    (fun id => !(removed_entities.contains id) && !(added_entities.contains id))
  let entity_mapping := mkMapping surviving_entities (n_nodes + 1)
  let all_edges := G.edges
  let G1 := entity_mapping.foldl
    (fun g p => if g.hasNode p.1 then g.addNode p.2 (g.nodeAttrs p.1) else g) G
  let G2 := entity_mapping.foldl
    (fun g p => if g.hasNode p.1 then g.removeNode p.1 else g) G1
  let G3 := all_edges.foldl
    (fun g e =>
      let new_src := (entity_mapping.lookup e.src).getD e.src
      let new_tgt := (entity_mapping.lookup e.tgt).getD e.tgt
      if g.hasNode new_src && g.hasNode new_tgt then
        g.addEdge new_src new_tgt (some e.key) e.attrs
      else g)
    G2
  (G3, entity_mapping)

/-- `add_random_entities`.  The Python function accumulates
`added_entities[None] = new_id` in a dict, so only the LAST added identifier
survives in the returned value set; the first component models that dict. -/
def add_random_entities (G : Graph) (n : Nat) : Option String × Graph :=
  match n with
  | 0 => (none, G)
  | m + 1 =>
    let r := add_random_entities G m
    let new_id := generate_unique_node_id r.2
    (some new_id, r.2.addNode new_id [("type", .str "RandomEntity")])

/-- `remove_random_entities`: sample `min n |nodes|` node identifiers and
delete them (returned dict keys are the removed identifiers). -/
def remove_random_entities (s : Nat) (G : Graph) (n : Nat) :
    List String × Graph × Nat :=
  let nodes := G.nodeIds
  let r := sampleAux s nodes (min n nodes.length)
  (r.1, G.removeNodesFrom r.1, r.2)

/-- `add_random_edges`: `n` times sample two distinct nodes and add an edge;
`random.sample(nodes, 2)` raises `ValueError` on a graph with fewer than two
nodes. -/
def add_random_edges (s : Nat) (G : Graph) (n : Nat) : Except String (Graph × Nat) :=
  match n with
  | 0 => .ok (G, s)
  | m + 1 => do
    let r ← add_random_edges s G m
    let nodes := r.1.nodeIds
    if nodes.length < 2 then .error "ValueError: sample larger than population"
    else
      let q := sampleAux r.2 nodes 2
      match q.1 with
      | [src, tgt] => .ok (r.1.addEdge src tgt none [("type", .str "randomRelation")], q.2)
      | _ => .error "ValueError: sample larger than population"

/-- `remove_random_edges`: `list(G.edges)` yields `(source, target)` pairs
(one per parallel edge); sampling picks `min n |edges|` of those positions,
and each pair removes its most recently inserted parallel edge. -/
def remove_random_edges (s : Nat) (G : Graph) (n : Nat) : Graph × Nat :=
  let edges := G.edges.map (fun e => (e.src, e.tgt))
  let r := sampleAux s edges (min n edges.length)
  (r.1.foldl (fun g p => g.removeLastEdge p.1 p.2) G, r.2)

/-! ### conversion.py -/

/-- A JSON entity object; `id = none` models an object without an `"id"` key
(`entity["id"]` raises `KeyError` there). -/
structure EntityJson where
  id : Option String
  attrs : Attrs
  deriving DecidableEq, Repr

/-- A JSON relation object; `none` source/target model missing keys. -/
structure RelationJson where
  source : Option String
  target : Option String
  type : Option AttrVal
  attrs : Attrs
  deriving DecidableEq, Repr

/-- The input KG JSON object; `none` models a missing top-level key
(`kg_json.get(key, [])` then defaults to the empty list). -/
structure KGJson where
  entities : Option (List EntityJson)
  relations : Option (List RelationJson)
  deriving DecidableEq, Repr

/-- `json_to_networkx`; a `KeyError` on a malformed object becomes
`Except.error`. -/
def json_to_networkx (kg : KGJson) : Except String Graph := do
  let ents := kg.entities.getD []
  let rels := kg.relations.getD []
  let G ← ents.foldlM
    (fun (g : Graph) ent =>
      match ent.id with
      | none => .error "KeyError: id"
      | some node_id => .ok (g.addNode node_id ent.attrs))
    { nodes := [], edges := [] }
  let G ← rels.foldlM
    (fun (g : Graph) rel =>
      match rel.source, rel.target with
      | some src, some tgt =>
        .ok (g.addEdge src tgt none (("type", rel.type.getD (.str "")) :: rel.attrs))
      | _, _ => .error "KeyError: source or target")
    G
  return G

structure OutEntity where
  id : String
  attrs : Attrs
  deriving DecidableEq, Repr

structure OutRelation where
  source : String
  target : String
  attrs : Attrs
  deriving DecidableEq, Repr

structure OutKG where
  entities : List OutEntity
  relations : List OutRelation
  deriving DecidableEq, Repr

/-- `networkx_to_json` -/
def networkx_to_json (G : Graph) : OutKG :=
  { entities := G.nodes.map (fun p => { id := p.1, attrs := p.2 }),
    relations := G.edges.map (fun e => { source := e.src, target := e.tgt, attrs := e.attrs }) }

/-! ### llm_integrations: provider model

`VertexLLM.generate_content` catches every provider exception and returns
`None`; the `BaseLLMWrapper` methods then return `result.strip() if result
else ""`.  A provider is therefore a record of `Option String`-valued
functions of the attribute bag, `none` meaning a failed call. -/

structure LLMProvider where
  rename_entity_raw : Attrs → Option String
  rename_relation_raw : Attrs → Option String
  synthesize_description_raw : Attrs → Option String

/-- `result.strip() if result else ""` in the `BaseLLMWrapper` methods. -/
def stripResult (r : Option String) : String :=
  match r with
  | none => ""
  | some s => s.trim

/-- `BaseLLMWrapper.rename_entity` as seen by the perturbator. -/
def LLMProvider.rename_entity (P : LLMProvider) (a : Attrs) : String :=
  stripResult (P.rename_entity_raw a)

/-- `BaseLLMWrapper.rename_relation` as seen by the perturbator. -/
def LLMProvider.rename_relation (P : LLMProvider) (a : Attrs) : String :=
  stripResult (P.rename_relation_raw a)

/-- `BaseLLMWrapper.synthesize_description` as seen by the perturbator. -/
def LLMProvider.synthesize_description (P : LLMProvider) (a : Attrs) : String :=
  stripResult (P.synthesize_description_raw a)

/-! ### perturbator.py -/

/-- Body of the `for node_id, attrs in G.nodes(data=True)` loop of
`KGPerturbator.rename_entities_with_llm`. -/
def renameNodeStep (P : LLMProvider) (g : Graph) (node : String × Attrs) : Graph :=
  match attrsGet node.2 "name" with
  | some v =>
    if v.truthy then
      let new_name := P.rename_entity node.2
      if new_name ≠ "" then
        match v with
        | .strList l =>
          g.updateNode node.1 (fun a => attrsSet a "name" (.strList (l.set 0 new_name)))
        | .str _ =>
          g.updateNode node.1 (fun a => attrsSet a "name" (.str new_name))
      else g
    else g
  | none => g

/-- `KGPerturbator.rename_entities_with_llm` (the returned
`renamed_entities` dict is discarded by `perturb` and not modelled). -/
def rename_entities_with_llm (P : LLMProvider) (G : Graph) : Graph :=
  G.nodes.foldl (renameNodeStep P) G

/-- Body of the edge loop of `KGPerturbator.rename_relations_with_llm`. -/
def renameEdgeStep (P : LLMProvider) (g : Graph) (e : Edge) : Graph :=
  let old_type := attrsGet e.attrs "type"
  if (old_type.map AttrVal.truthy).getD false then
    let new_type := P.rename_relation e.attrs
    if new_type ≠ "" then
      g.updateEdge e.src e.tgt e.key (fun a => attrsSet a "type" (.str new_type))
    else g
  else g

/-- `KGPerturbator.rename_relations_with_llm` -/
def rename_relations_with_llm (P : LLMProvider) (G : Graph) : Graph :=
  G.edges.foldl (renameEdgeStep P) G

/-- Body of the node loop of `KGPerturbator.perturb_entities_with_llm`. -/
def perturbNodeStep (P : LLMProvider) (update_name update_description : Bool)
    (g : Graph) (node : String × Attrs) : Graph :=
  let attrs := node.2
  if attrsGet attrs "type" = some (.str "RandomEntity") then g
  else if (attrs.filter (fun p => p.1 ≠ "id")).isEmpty then g
  else
    match attrsGet attrs "name" with
    | none => g
    | some name_value =>
      if ¬ name_value.truthy then g
      else
        let new_description := P.synthesize_description attrs
        if new_description ≠ "" then
          let g1 := if update_description then
              g.updateNode node.1 (fun a => attrsSet a "description" (.strList [new_description]))
            else g
          if update_name then
            g1.updateNode node.1 (fun a => attrsSet a "name" (.strList [new_description]))
          else g1
        else g

/-- `KGPerturbator.perturb_entities_with_llm` -/
def perturb_entities_with_llm (P : LLMProvider) (update_name update_description : Bool)
    (G : Graph) : Graph :=
  G.nodes.foldl (perturbNodeStep P update_name update_description) G

/-- The perturbation configuration plus the two flags read from the LLM
configuration (`update_name`, `update_description`).  A count field set to
`0` is falsy in Python, so the corresponding operator is skipped. -/
structure Config where
  remove_entities : Nat := 0
  add_entities : Nat := 0
  remove_edges : Nat := 0
  add_edges : Nat := 0
  llm_rename_entities : Bool := false
  llm_rename_relations : Bool := false
  llm_perturb_entities : Bool := false
  update_name : Bool := false
  update_description : Bool := true
  deriving DecidableEq, Repr

/-- The structural half of `KGPerturbator.perturb`: conversion, the four
mutation operators guarded by truthiness of their counts, then
`reassign_entity_ids`.  Returns the mutated graph and the entity mapping. -/
def perturbStructural (cfg : Config) (kg : KGJson) (s : Nat) :
    Except String (Graph × List (String × String)) := do
  let G0 ← json_to_networkx kg
  let n_nodes := G0.nodes.length
  let r1 := if cfg.remove_entities ≠ 0 then remove_random_entities s G0 cfg.remove_entities
    else ([], G0, s)
  let removed_entities := r1.1
  let r2 := if cfg.add_entities ≠ 0 then add_random_entities r1.2.1 cfg.add_entities
    else (none, r1.2.1)
  let added_entities := r2.1.toList
  let r3 := if cfg.remove_edges ≠ 0 then remove_random_edges r1.2.2 r2.2 cfg.remove_edges
    else (r2.2, r1.2.2)
  let r4 ← if cfg.add_edges ≠ 0 then add_random_edges r3.2 r3.1 cfg.add_edges
    else .ok (r3.1, r3.2)
  return reassign_entity_ids r4.1 removed_entities added_entities n_nodes

/-- `KGPerturbator.perturb`: the structural phase, then the three optional
content passes, then serialization.  `s` is the state of the pseudo-random
stream (the CLI seeds it from the configuration before calling `perturb`). -/
def perturb (cfg : Config) (P : LLMProvider) (kg : KGJson) (s : Nat) :
    Except String (OutKG × List (String × String)) := do
  let r ← perturbStructural cfg kg s
  let entity_mapping := r.2
  let G5 := if cfg.llm_rename_entities then rename_entities_with_llm P r.1 else r.1
  let G6 := if cfg.llm_rename_relations then rename_relations_with_llm P G5 else G5
  let G7 := if cfg.llm_perturb_entities then
      perturb_entities_with_llm P cfg.update_name cfg.update_description G6
    else G6
  return (networkx_to_json G7, entity_mapping)

/-! ### Properties of the sampling model -/

theorem getD_cons_eraseIdx_perm {α : Type} (xs : List α) (i : Nat) (h : i < xs.length) (d : α) :
    List.Perm (xs.getD i d :: xs.eraseIdx i) xs := by
  induction xs generalizing i with
  | nil => simp at h
  | cons x t ih =>
    cases i with
    | zero => simp
    | succ j =>
      have hj : j < t.length := by simpa using h
      have step : List.Perm (t.getD j d :: x :: t.eraseIdx j) (x :: t.getD j d :: t.eraseIdx j) :=
        List.Perm.swap x (t.getD j d) (t.eraseIdx j)
      have tail : List.Perm (x :: t.getD j d :: t.eraseIdx j) (x :: t) :=
        List.Perm.cons x (ih j hj)
      simpa [List.eraseIdx] using step.trans tail

theorem sampleAux_cons {α : Type} (s : Nat) (x : α) (t : List α) (m : Nat) :
    sampleAux s (x :: t) (m + 1) =
      ((x :: t).getD (lcgStep s % (x :: t).length) x ::
          (sampleAux (lcgStep s) ((x :: t).eraseIdx (lcgStep s % (x :: t).length)) m).1,
        (sampleAux (lcgStep s) ((x :: t).eraseIdx (lcgStep s % (x :: t).length)) m).2) := rfl

theorem sampleAux_length {α : Type} (s : Nat) (xs : List α) (k : Nat) :
    (sampleAux s xs k).1.length = min k xs.length := by
  induction k generalizing s xs with
  | zero => simp [sampleAux]
  | succ m ih =>
    cases xs with
    | nil => simp [sampleAux]
    | cons x t =>
      have hlt : lcgStep s % (x :: t).length < (x :: t).length :=
        Nat.mod_lt _ (by simp)
      have herase : ((x :: t).eraseIdx (lcgStep s % (x :: t).length)).length = t.length := by
        have := List.length_eraseIdx_of_lt hlt
        simpa using this
      rw [sampleAux_cons]
      simp only [List.length_cons, ih]
      simp only [List.length_cons] at herase
      rw [herase]
      omega

theorem sampleAux_subperm {α : Type} (s : Nat) (xs : List α) (k : Nat) :
    List.Subperm (sampleAux s xs k).1 xs := by
  induction k generalizing s xs with
  | zero => simp [sampleAux]
  | succ m ih =>
    cases xs with
    | nil => simp [sampleAux]
    | cons x t =>
      have hlt : lcgStep s % (x :: t).length < (x :: t).length :=
        Nat.mod_lt _ (by simp)
      have hperm := getD_cons_eraseIdx_perm (x :: t) (lcgStep s % (x :: t).length) hlt x
      have hrec := ih (lcgStep s) ((x :: t).eraseIdx (lcgStep s % (x :: t).length))
      have hcons :
          List.Subperm
            ((x :: t).getD (lcgStep s % (x :: t).length) x ::
              (sampleAux (lcgStep s) ((x :: t).eraseIdx (lcgStep s % (x :: t).length)) m).1)
            ((x :: t).getD (lcgStep s % (x :: t).length) x ::
              (x :: t).eraseIdx (lcgStep s % (x :: t).length)) :=
        (List.subperm_cons _).mpr hrec
      have : List.Subperm
          ((x :: t).getD (lcgStep s % (x :: t).length) x ::
            (sampleAux (lcgStep s) ((x :: t).eraseIdx (lcgStep s % (x :: t).length)) m).1)
          (x :: t) := hcons.trans hperm.subperm
      rw [sampleAux_cons]
      exact this

theorem sampleAux_nodup {α : Type} (s : Nat) (xs : List α) (k : Nat) (h : xs.Nodup) :
    (sampleAux s xs k).1.Nodup := by
  obtain ⟨l, hp, hs⟩ := sampleAux_subperm s xs k
  exact hp.nodup (hs.nodup h)

theorem sampleAux_mem {α : Type} (s : Nat) (xs : List α) (k : Nat) (x : α)
    (h : x ∈ (sampleAux s xs k).1) : x ∈ xs := by
  obtain ⟨l, hp, hs⟩ := sampleAux_subperm s xs k
  exact hs.subset (hp.symm.subset h)

theorem sampleAux_count_le {α : Type} [BEq α] (s : Nat) (xs : List α) (k : Nat) (x : α) :
    (sampleAux s xs k).1.count x ≤ xs.count x := by
  simp only [List.count]
  exact (sampleAux_subperm s xs k).countP_le _

/-! ### Basic graph lemmas -/

theorem hasNode_iff (G : Graph) (id : String) : G.hasNode id = true ↔ id ∈ G.nodeIds := by
  simp [Graph.hasNode, Graph.nodeIds, List.any_eq_true]

theorem hasNode_false_iff (G : Graph) (id : String) :
    G.hasNode id = false ↔ id ∉ G.nodeIds := by
  rw [← hasNode_iff]
  cases h : G.hasNode id <;> simp [h]

/-- A list of `m` distinct values cannot all lie in a list of length `< m`. -/
theorem exists_not_mem_of_nodup_long {α : Type} [DecidableEq α] (cand pool : List α)
    (hnd : cand.Nodup) (hlen : pool.length < cand.length) : ∃ x ∈ cand, x ∉ pool := by
  by_contra hall
  push_neg at hall
  have hsub : cand ⊆ pool := fun x hx => hall x hx
  have := (hnd.subperm hsub).length_le
  omega

/-! ### generate_unique_node_id returns a fresh identifier -/

theorem genUniqueAux_shape (G : Graph) (i fuel : Nat) :
    ∃ j, i ≤ j ∧ j ≤ i + fuel ∧ genUniqueAux G i fuel = randId j := by
  induction fuel generalizing i with
  | zero => exact ⟨i, le_rfl, by omega, rfl⟩
  | succ f ih =>
    by_cases h : G.hasNode (randId i)
    · obtain ⟨j, h1, h2, h3⟩ := ih (i + 1)
      exact ⟨j, by omega, by omega, by simpa [genUniqueAux, h] using h3⟩
    · exact ⟨i, le_rfl, by omega, by simp [genUniqueAux, h]⟩

theorem genUniqueAux_free (G : Graph) (i fuel : Nat)
    (h : ∃ j, i ≤ j ∧ j ≤ i + fuel ∧ ¬ G.hasNode (randId j)) :
    ¬ G.hasNode (genUniqueAux G i fuel) := by
  induction fuel generalizing i with
  | zero =>
    obtain ⟨j, h1, h2, h3⟩ := h
    have : j = i := by omega
    subst this
    simpa [genUniqueAux] using h3
  | succ f ih =>
    by_cases hi : G.hasNode (randId i)
    · obtain ⟨j, h1, h2, h3⟩ := h
      have hji : j ≠ i := by rintro rfl; exact h3 (by simp [hi])
      have : ∃ j, i + 1 ≤ j ∧ j ≤ i + 1 + f ∧ ¬ G.hasNode (randId j) :=
        ⟨j, by omega, by omega, h3⟩
      simpa [genUniqueAux, hi] using ih (i + 1) this
    · simp only [genUniqueAux, if_neg hi]
      exact hi

theorem generate_unique_node_id_shape (G : Graph) :
    ∃ j, 1 ≤ j ∧ generate_unique_node_id G = randId j := by
  obtain ⟨j, h1, _, h3⟩ := genUniqueAux_shape G 1 (G.nodes.length + 1)
  exact ⟨j, h1, h3⟩

theorem generate_unique_node_id_fresh (G : Graph) :
    generate_unique_node_id G ∉ G.nodeIds := by
  have hlen : G.nodeIds.length = G.nodes.length := by simp [Graph.nodeIds]
  have hcand : ∃ j, 1 ≤ j ∧ j ≤ 1 + (G.nodes.length + 1) ∧ ¬ G.hasNode (randId j) := by
    have hnd : ((List.range (G.nodes.length + 1)).map (fun k => randId (k + 1))).Nodup := by
      refine List.Nodup.map ?_ (List.nodup_range _)
      intro a b hab
      have := randId_inj _ _ hab
      omega
    have hlong : G.nodeIds.length <
        ((List.range (G.nodes.length + 1)).map (fun k => randId (k + 1))).length := by
      simp [hlen]
    obtain ⟨x, hx, hnx⟩ := exists_not_mem_of_nodup_long _ _ hnd hlong
    obtain ⟨k, hk, rfl⟩ := List.mem_map.mp hx
    refine ⟨k + 1, by omega, ?_, ?_⟩
    · have := List.mem_range.mp hk; omega
    · rw [← hasNode_false_iff] at hnx
      simp [hnx]
  have hfree := genUniqueAux_free G 1 (G.nodes.length + 1) hcand
  have h2 : G.hasNode (genUniqueAux G 1 (G.nodes.length + 1)) = false := by
    simpa using hfree
  apply (hasNode_false_iff G _).mp
  unfold generate_unique_node_id
  exact h2

/-! ### Graph well-formedness: distinct node identifiers, distinct edge
triples, and no dangling edge endpoints -/

def Graph.edgeTriples (G : Graph) : List (String × String × Nat) :=
  G.edges.map (fun e => (e.src, e.tgt, e.key))

def Graph.closed (G : Graph) : Prop :=
  ∀ e ∈ G.edges, e.src ∈ G.nodeIds ∧ e.tgt ∈ G.nodeIds

def Graph.wf (G : Graph) : Prop :=
  G.nodeIds.Nodup ∧ G.edgeTriples.Nodup ∧ G.closed

theorem map_fst_filter (q : String → Bool) (l : List (String × Attrs)) :
    (l.filter (fun p => q p.1)).map (fun p => p.1) = (l.map (fun p => p.1)).filter q := by
  induction l with
  | nil => rfl
  | cons x t ih =>
    by_cases h : q x.1 <;> simp [List.filter_cons, h, ih]

theorem foldl_preserves {α : Type} (P : Graph → Prop) (step : Graph → α → Graph)
    (hstep : ∀ g x, P g → P (step g x)) :
    ∀ (l : List α) (g : Graph), P g → P (l.foldl step g) := by
  intro l
  induction l with
  | nil => intro g h; exact h
  | cons x t ih => intro g h; exact ih (step g x) (hstep g x h)

/-! #### addNode -/

theorem addNode_of_not_hasNode (G : Graph) (id : String) (a : Attrs)
    (h : G.hasNode id = false) :
    G.addNode id a = { G with nodes := G.nodes ++ [(id, a)] } := by
  simp [Graph.addNode, h]

theorem nodeIds_addNode_of_hasNode (G : Graph) (id : String) (a : Attrs)
    (h : G.hasNode id = true) : (G.addNode id a).nodeIds = G.nodeIds := by
  simp only [Graph.addNode, h, if_pos, Graph.nodeIds, List.map_map]
  refine List.map_congr_left ?_
  intro p _
  by_cases hp : p.1 = id <;> simp [hp]

theorem edges_addNode (G : Graph) (id : String) (a : Attrs) :
    (G.addNode id a).edges = G.edges := by
  unfold Graph.addNode
  by_cases h : G.hasNode id <;> simp [h]

theorem nodeIds_subset_addNode (G : Graph) (id : String) (a : Attrs) :
    G.nodeIds ⊆ (G.addNode id a).nodeIds := by
  by_cases h : G.hasNode id
  · rw [nodeIds_addNode_of_hasNode G id a h]
    exact fun x hx => hx
  · rw [addNode_of_not_hasNode G id a (by simpa using h)]
    intro x hx
    simp only [Graph.nodeIds] at hx ⊢
    simp [hx]

theorem wf_addNode (G : Graph) (id : String) (a : Attrs) (h : G.wf) :
    (G.addNode id a).wf := by
  obtain ⟨h1, h2, h3⟩ := h
  refine ⟨?_, ?_, ?_⟩
  · by_cases hh : G.hasNode id
    · rw [nodeIds_addNode_of_hasNode G id a hh]; exact h1
    · rw [addNode_of_not_hasNode G id a (by simpa using hh)]
      have : id ∉ G.nodeIds := (hasNode_false_iff G id).mp (by simpa using hh)
      simp only [Graph.nodeIds, List.map_append, List.map_cons, List.map_nil]
      rw [List.nodup_append]
      exact ⟨h1, by simp, by simpa [Graph.nodeIds] using fun hx => this hx⟩
  · simpa [Graph.edgeTriples, edges_addNode] using h2
  · intro e he
    rw [edges_addNode] at he
    obtain ⟨hs, ht⟩ := h3 e he
    exact ⟨nodeIds_subset_addNode G id a hs, nodeIds_subset_addNode G id a ht⟩

/-! #### removeNode, removeNodesFrom -/

theorem nodeIds_removeNode (G : Graph) (id : String) :
    (G.removeNode id).nodeIds = G.nodeIds.filter (fun x => x ≠ id) := by
  simp only [Graph.removeNode, Graph.nodeIds]
  exact map_fst_filter (fun x => decide (x ≠ id)) G.nodes

theorem wf_removeNode (G : Graph) (id : String) (h : G.wf) : (G.removeNode id).wf := by
  obtain ⟨h1, h2, h3⟩ := h
  refine ⟨?_, ?_, ?_⟩
  · rw [nodeIds_removeNode]; exact h1.filter _
  · have : (G.removeNode id).edges.Sublist G.edges := List.filter_sublist _
    exact ((this.map _).nodup h2 : _)
  · intro e he
    simp only [Graph.removeNode, List.mem_filter, decide_eq_true_eq] at he
    obtain ⟨hmem, hcond⟩ := he
    obtain ⟨hs, ht⟩ := h3 e hmem
    rw [nodeIds_removeNode]
    constructor <;> simp only [List.mem_filter, decide_eq_true_eq]
    · exact ⟨hs, by simpa using hcond.1⟩
    · exact ⟨ht, by simpa using hcond.2⟩

theorem nodeIds_removeNodesFrom (G : Graph) (ids : List String) :
    (G.removeNodesFrom ids).nodeIds = G.nodeIds.filter (fun x => x ∉ ids) := by
  simp only [Graph.removeNodesFrom, Graph.nodeIds]
  exact map_fst_filter (fun x => decide (x ∉ ids)) G.nodes

theorem wf_removeNodesFrom (G : Graph) (ids : List String) (h : G.wf) :
    (G.removeNodesFrom ids).wf := by
  obtain ⟨h1, h2, h3⟩ := h
  refine ⟨?_, ?_, ?_⟩
  · rw [nodeIds_removeNodesFrom]; exact h1.filter _
  · have : (G.removeNodesFrom ids).edges.Sublist G.edges := List.filter_sublist _
    exact ((this.map _).nodup h2 : _)
  · intro e he
    simp only [Graph.removeNodesFrom, List.mem_filter, decide_eq_true_eq] at he
    obtain ⟨hmem, hcond⟩ := he
    obtain ⟨hs, ht⟩ := h3 e hmem
    rw [nodeIds_removeNodesFrom]
    constructor <;> simp only [List.mem_filter, decide_eq_true_eq]
    · exact ⟨hs, by simpa using hcond.1⟩
    · exact ⟨ht, by simpa using hcond.2⟩

/-! #### updateNode, updateEdge -/

theorem nodeIds_updateNode (G : Graph) (id : String) (f : Attrs → Attrs) :
    (G.updateNode id f).nodeIds = G.nodeIds := by
  simp only [Graph.updateNode, Graph.nodeIds, List.map_map]
  refine List.map_congr_left ?_
  intro p _
  by_cases hp : p.1 = id <;> simp [hp]

theorem edges_updateNode (G : Graph) (id : String) (f : Attrs → Attrs) :
    (G.updateNode id f).edges = G.edges := rfl

theorem nodes_updateEdge (G : Graph) (u v : String) (k : Nat) (f : Attrs → Attrs) :
    (G.updateEdge u v k f).nodes = G.nodes := rfl

theorem edgeTriples_updateEdge (G : Graph) (u v : String) (k : Nat) (f : Attrs → Attrs) :
    (G.updateEdge u v k f).edgeTriples = G.edgeTriples := by
  simp only [Graph.updateEdge, Graph.edgeTriples, List.map_map]
  refine List.map_congr_left ?_
  intro e _
  by_cases he : e.src = u ∧ e.tgt = v ∧ e.key = k <;> simp [he]

theorem wf_updateNode (G : Graph) (id : String) (f : Attrs → Attrs) (h : G.wf) :
    (G.updateNode id f).wf := by
  obtain ⟨h1, h2, h3⟩ := h
  refine ⟨by rw [nodeIds_updateNode]; exact h1, by
    simpa [Graph.edgeTriples, edges_updateNode] using h2, ?_⟩
  intro e he
  rw [edges_updateNode] at he
  rw [nodeIds_updateNode]
  exact h3 e he

theorem mem_edges_updateEdge (G : Graph) (u v : String) (k : Nat) (f : Attrs → Attrs)
    (e : Edge) (he : e ∈ (G.updateEdge u v k f).edges) :
    ∃ e0 ∈ G.edges, e.src = e0.src ∧ e.tgt = e0.tgt ∧ e.key = e0.key := by
  simp only [Graph.updateEdge, List.mem_map] at he
  obtain ⟨e0, he0, rfl⟩ := he
  by_cases hc : e0.src = u ∧ e0.tgt = v ∧ e0.key = k <;>
    · simp only [hc]
      exact ⟨e0, he0, by simp [hc]⟩

theorem wf_updateEdge (G : Graph) (u v : String) (k : Nat) (f : Attrs → Attrs) (h : G.wf) :
    (G.updateEdge u v k f).wf := by
  obtain ⟨h1, h2, h3⟩ := h
  refine ⟨by simpa [Graph.nodeIds, nodes_updateEdge] using h1,
    by rw [edgeTriples_updateEdge]; exact h2, ?_⟩
  intro e he
  obtain ⟨e0, he0, hs, ht, _⟩ := mem_edges_updateEdge G u v k f e he
  obtain ⟨h4, h5⟩ := h3 e0 he0
  have hn : (G.updateEdge u v k f).nodeIds = G.nodeIds := by
    simp [Graph.nodeIds, nodes_updateEdge]
  rw [hn, hs, ht]
  exact ⟨h4, h5⟩

/-! #### insNode, addEdge, removeLastEdge -/

theorem edges_insNode (G : Graph) (id : String) : (G.insNode id).edges = G.edges := by
  unfold Graph.insNode
  by_cases h : G.hasNode id <;> simp [h]

theorem insNode_of_hasNode (G : Graph) (id : String) (h : G.hasNode id = true) :
    G.insNode id = G := by
  simp [Graph.insNode, h]

theorem nodeIds_subset_insNode (G : Graph) (id : String) :
    G.nodeIds ⊆ (G.insNode id).nodeIds := by
  unfold Graph.insNode
  by_cases h : G.hasNode id
  · simp [h]
  · simp only [h, if_neg]
    intro x hx
    simp only [Graph.nodeIds] at hx ⊢
    simp [hx]

theorem hasNode_insNode (G : Graph) (id : String) : (G.insNode id).hasNode id = true := by
  by_cases h : G.hasNode id = true
  · rw [insNode_of_hasNode G id h]; exact h
  · unfold Graph.insNode
    rw [if_neg (by simpa using h)]
    rw [hasNode_iff]
    simp [Graph.nodeIds]

theorem hasNode_insNode_mono (G : Graph) (id id2 : String) (h : G.hasNode id2 = true) :
    (G.insNode id).hasNode id2 = true := by
  rw [hasNode_iff] at h ⊢
  exact nodeIds_subset_insNode G id h

theorem wf_insNode (G : Graph) (id : String) (h : G.wf) : (G.insNode id).wf := by
  obtain ⟨h1, h2, h3⟩ := h
  unfold Graph.insNode
  by_cases hh : G.hasNode id
  · simpa [hh] using ⟨h1, h2, h3⟩
  · rw [if_neg (by simp [hh])]
    refine ⟨?_, h2, ?_⟩
    · have : id ∉ G.nodeIds := (hasNode_false_iff G id).mp (by simpa using hh)
      simp only [Graph.nodeIds, List.map_append, List.map_cons, List.map_nil]
      rw [List.nodup_append]
      exact ⟨h1, by simp, by simpa [Graph.nodeIds] using fun hx => this hx⟩
    · intro e he
      obtain ⟨hs, ht⟩ := h3 e he
      have hsub : G.nodeIds ⊆ ({ G with nodes := G.nodes ++ [(id, [])] } : Graph).nodeIds := by
        intro x hx
        simp only [Graph.nodeIds] at hx ⊢
        simp [hx]
      exact ⟨hsub hs, hsub ht⟩

theorem any_check_iff (G : Graph) (u v : String) (k : Nat) :
    (G.edges.any (fun e => e.src == u && e.tgt == v && e.key == k)) = true ↔
      (u, v, k) ∈ G.edgeTriples := by
  simp only [List.any_eq_true, Bool.and_eq_true, beq_iff_eq, Graph.edgeTriples, List.mem_map,
    Prod.mk.injEq]
  constructor
  · rintro ⟨e, he, ⟨hs, ht⟩, hk⟩; exact ⟨e, he, hs, ht, hk⟩
  · rintro ⟨e, he, hs, ht, hk⟩; exact ⟨e, he, ⟨hs, ht⟩, hk⟩

theorem findFreeKey_free (keys : List Nat) (start fuel : Nat)
    (h : ∃ j, start ≤ j ∧ j ≤ start + fuel ∧ j ∉ keys) :
    findFreeKey keys start fuel ∉ keys := by
  induction fuel generalizing start with
  | zero =>
    obtain ⟨j, h1, h2, h3⟩ := h
    have : j = start := by omega
    subst this
    simpa [findFreeKey] using h3
  | succ f ih =>
    have hstep : findFreeKey keys start (f + 1) =
        if keys.contains start then findFreeKey keys (start + 1) f else start := rfl
    by_cases hs : keys.contains start = true
    · obtain ⟨j, h1, h2, h3⟩ := h
      have hji : j ≠ start := by
        rintro rfl
        exact h3 (by simpa using hs)
      have hex : ∃ j, start + 1 ≤ j ∧ j ≤ start + 1 + f ∧ j ∉ keys := ⟨j, by omega, by omega, h3⟩
      rw [hstep, if_pos hs]
      exact ih (start + 1) hex
    · rw [hstep, if_neg (by simpa using hs)]
      simpa using hs

theorem findFreeKey_from_length (keys : List Nat) :
    findFreeKey keys keys.length (keys.length + 1) ∉ keys := by
  apply findFreeKey_free
  have hnd : ((List.range (keys.length + 2)).map (fun k => keys.length + k)).Nodup := by
    refine List.Nodup.map ?_ (List.nodup_range _)
    intro a b hab
    exact Nat.add_left_cancel hab
  have hlong : keys.length <
      ((List.range (keys.length + 2)).map (fun k => keys.length + k)).length := by
    simp
  obtain ⟨x, hx, hnx⟩ := exists_not_mem_of_nodup_long _ _ hnd hlong
  simp only [List.mem_map, List.mem_range] at hx
  obtain ⟨k, hk, hxeq⟩ := hx
  exact ⟨x, by omega, by omega, hnx⟩

theorem newEdgeKey_not_used (G : Graph) (u v : String) :
    ¬ (u, v, G.newEdgeKey u v) ∈ G.edgeTriples := by
  intro hmem
  have h2 := findFreeKey_from_length
    ((G.edges.filter (fun e => e.src == u && e.tgt == v)).map (fun e => e.key))
  apply h2
  show G.newEdgeKey u v ∈ _
  simp only [Graph.edgeTriples, List.mem_map, Prod.mk.injEq] at hmem
  obtain ⟨e, he, hs, ht, hk⟩ := hmem
  simp only [List.mem_map, List.mem_filter, Bool.and_eq_true, beq_iff_eq]
  exact ⟨e, ⟨he, hs, ht⟩, hk⟩

theorem nodes_addEdge_of_hasNode (G : Graph) (u v : String) (key? : Option Nat) (attrs : Attrs)
    (hu : G.hasNode u = true) (hv : G.hasNode v = true) :
    (G.addEdge u v key? attrs).nodes = G.nodes := by
  unfold Graph.addEdge
  rw [insNode_of_hasNode G u hu, insNode_of_hasNode G v hv]
  by_cases h : G.edges.any (fun e => e.src == u && e.tgt == v &&
      e.key == (match key? with | some k => k | none => G.newEdgeKey u v)) <;>
    simp [h]

theorem edges_addEdge_append (G : Graph) (u v : String) (attrs : Attrs)
    (hu : G.hasNode u = true) (hv : G.hasNode v = true) :
    (G.addEdge u v none attrs).edges =
      G.edges ++ [{ src := u, tgt := v, key := G.newEdgeKey u v, attrs := attrs }] := by
  unfold Graph.addEdge
  rw [insNode_of_hasNode G u hu, insNode_of_hasNode G v hv]
  have hcheck : (G.edges.any (fun e => e.src == u && e.tgt == v && e.key == G.newEdgeKey u v))
      = false := by
    cases h : G.edges.any (fun e => e.src == u && e.tgt == v && e.key == G.newEdgeKey u v)
    · rfl
    · exact absurd ((any_check_iff G u v _).mp h) (newEdgeKey_not_used G u v)
  simp [hcheck]

theorem mem_edges_addEdge (G : Graph) (u v : String) (key? : Option Nat) (attrs : Attrs)
    (e : Edge) (he : e ∈ (G.addEdge u v key? attrs).edges) :
    (∃ e0 ∈ G.edges, e.src = e0.src ∧ e.tgt = e0.tgt ∧ e.key = e0.key) ∨
      (e.src = u ∧ e.tgt = v) := by
  simp only [Graph.addEdge] at he
  rw [edges_insNode, edges_insNode] at he
  split at he
  · simp only [List.mem_map] at he
    obtain ⟨e0, he0, rfl⟩ := he
    left
    refine ⟨e0, he0, ?_⟩
    split <;> simp
  · simp only [List.mem_append, List.mem_singleton] at he
    rcases he with he | rfl
    · left; exact ⟨e, he, rfl, rfl, rfl⟩
    · right; exact ⟨rfl, rfl⟩

theorem wf_addEdge (G : Graph) (u v : String) (key? : Option Nat) (attrs : Attrs)
    (h : G.wf) : (G.addEdge u v key? attrs).wf := by
  have h2 : ((G.insNode u).insNode v).wf := wf_insNode _ v (wf_insNode G u h)
  obtain ⟨w1, w2, w3⟩ := h2
  have husn : ((G.insNode u).insNode v).hasNode u = true :=
    hasNode_insNode_mono _ v u (hasNode_insNode G u)
  have hvsn : ((G.insNode u).insNode v).hasNode v = true := hasNode_insNode _ v
  unfold Graph.addEdge
  set G2 := (G.insNode u).insNode v with hG2
  set key := (match key? with | some k => k | none => G2.newEdgeKey u v) with hkey
  by_cases hc : G2.edges.any (fun e => e.src == u && e.tgt == v && e.key == key)
  · rw [if_pos hc]
    refine ⟨w1, ?_, ?_⟩
    · have : ({ G2 with edges := G2.edges.map (fun e =>
          if e.src = u ∧ e.tgt = v ∧ e.key = key then
            { e with attrs := attrsUpdate e.attrs attrs } else e) } : Graph).edgeTriples
          = G2.edgeTriples := by
        simp only [Graph.edgeTriples, List.map_map]
        refine List.map_congr_left ?_
        intro e _
        by_cases hcc : e.src = u ∧ e.tgt = v ∧ e.key = key <;> simp [hcc]
      rw [this]
      exact w2
    · intro e he
      simp only [List.mem_map] at he
      obtain ⟨e0, he0, rfl⟩ := he
      obtain ⟨hs, ht⟩ := w3 e0 he0
      constructor
      · split <;> split <;> exact hs
      · split <;> split <;> exact ht
  · rw [if_neg hc]
    refine ⟨w1, ?_, ?_⟩
    · have hnotin : (u, v, key) ∉ G2.edgeTriples := by
        intro hmem
        exact hc ((any_check_iff G2 u v key).mpr hmem)
      simp only [Graph.edgeTriples, List.map_append, List.map_cons, List.map_nil]
      rw [List.nodup_append]
      refine ⟨w2, by simp, ?_⟩
      intro a ha hb
      simp only [List.mem_singleton] at hb
      subst hb
      exact hnotin ha
    · intro e he
      simp only [List.mem_append, List.mem_singleton] at he
      rcases he with he | rfl
      · obtain ⟨hs, ht⟩ := w3 e he
        exact ⟨hs, ht⟩
      · exact ⟨(hasNode_iff G2 u).mp husn, (hasNode_iff G2 v).mp hvsn⟩

theorem nodes_removeLastEdge (G : Graph) (u v : String) :
    (G.removeLastEdge u v).nodes = G.nodes := rfl

theorem edges_removeLastEdge_subperm (G : Graph) (u v : String) :
    List.Subperm (G.removeLastEdge u v).edges G.edges := by
  have h1 : ((G.edges.reverse.eraseP (fun e => e.src == u && e.tgt == v))).Sublist
      G.edges.reverse := List.eraseP_sublist _
  have h2 : List.Subperm (G.edges.reverse.eraseP (fun e => e.src == u && e.tgt == v)).reverse
      G.edges.reverse := by
    refine List.Subperm.trans ?_ h1.subperm
    exact (List.reverse_perm _).subperm
  exact h2.trans (List.reverse_perm _).subperm

theorem wf_removeLastEdge (G : Graph) (u v : String) (h : G.wf) :
    (G.removeLastEdge u v).wf := by
  obtain ⟨h1, h2, h3⟩ := h
  obtain ⟨l, hp, hs⟩ := edges_removeLastEdge_subperm G u v
  refine ⟨h1, ?_, ?_⟩
  · have hperm := hp.map (fun e => (e.src, e.tgt, e.key))
    have hsl := hs.map (fun e => (e.src, e.tgt, e.key))
    exact hperm.nodup (hsl.nodup h2)
  · intro e he
    have : e ∈ G.edges := (hs.subset) (hp.symm.subset he)
    obtain ⟨hsx, htx⟩ := h3 e this
    exact ⟨hsx, htx⟩

/-! ### Counting helpers -/

theorem length_filter_mem_eq (l R : List String) (hl : l.Nodup) (hR : R.Nodup)
    (hsub : R ⊆ l) : (l.filter (fun x => x ∈ R)).length = R.length := by
  have h1 : List.Subperm (l.filter (fun x => x ∈ R)) R := by
    refine (hl.filter _).subperm ?_
    intro x hx
    have := List.of_mem_filter hx
    simpa using this
  have h2 : List.Subperm R (l.filter (fun x => x ∈ R)) := by
    refine hR.subperm ?_
    intro x hx
    exact List.mem_filter.mpr ⟨hsub hx, by simpa using hx⟩
  have := h1.length_le
  have := h2.length_le
  omega

theorem length_filter_not_mem (l R : List String) (hl : l.Nodup) (hR : R.Nodup)
    (hsub : R ⊆ l) : (l.filter (fun x => x ∉ R)).length + R.length = l.length := by
  have hperm := List.filter_append_perm (fun x => decide (x ∈ R)) l
  have hlen := hperm.length_eq
  rw [List.length_append] at hlen
  have hcongr : l.filter (fun x => !(decide (x ∈ R))) = l.filter (fun x => x ∉ R) := by
    refine List.filter_congr ?_
    intro x _
    simp
  rw [hcongr] at hlen
  have := length_filter_mem_eq l R hl hR hsub
  omega

/-! ### mkMapping -/

theorem mkMapping_map_fst (l : List String) (c : Nat) :
    (mkMapping l c).map (fun p => p.1) = l := by
  induction l generalizing c with
  | nil => rfl
  | cons x t ih => simp [mkMapping, ih]

theorem mkMapping_length (l : List String) (c : Nat) : (mkMapping l c).length = l.length := by
  induction l generalizing c with
  | nil => rfl
  | cons x t ih => simp [mkMapping, ih]

theorem mkMapping_values_shape (l : List String) (c : Nat) :
    ∀ p ∈ mkMapping l c, ∃ j, c ≤ j ∧ j < c + l.length ∧ p.2 = eId j := by
  induction l generalizing c with
  | nil => intro p hp; simp [mkMapping] at hp
  | cons x t ih =>
    intro p hp
    simp only [mkMapping, List.mem_cons] at hp
    rcases hp with rfl | hp
    · exact ⟨c, le_rfl, by simp, rfl⟩
    · obtain ⟨j, h1, h2, h3⟩ := ih (c + 1) p hp
      exact ⟨j, by omega, by simp; omega, h3⟩

theorem mkMapping_values_nodup (l : List String) (c : Nat) :
    ((mkMapping l c).map (fun p => p.2)).Nodup := by
  induction l generalizing c with
  | nil => simp [mkMapping]
  | cons x t ih =>
    simp only [mkMapping, List.map_cons, List.nodup_cons]
    refine ⟨?_, ih (c + 1)⟩
    intro hmem
    simp only [List.mem_map] at hmem
    obtain ⟨p, hp, hpe⟩ := hmem
    obtain ⟨j, h1, _, h3⟩ := mkMapping_values_shape t (c + 1) p hp
    rw [h3] at hpe
    have := eId_inj j c hpe
    omega

/-! ### remove_random_entities -/

theorem remove_random_entities_spec (s : Nat) (G : Graph) (n : Nat)
    (h : G.nodeIds.Nodup) :
    (remove_random_entities s G n).1.Nodup ∧
    (remove_random_entities s G n).1.length = min n G.nodes.length ∧
    (∀ x ∈ (remove_random_entities s G n).1, x ∈ G.nodeIds) ∧
    (remove_random_entities s G n).2.1.nodeIds
      = G.nodeIds.filter (fun x => x ∉ (remove_random_entities s G n).1) ∧
    (remove_random_entities s G n).2.1.nodes.length + min n G.nodes.length
      = G.nodes.length := by
  have hlen : G.nodeIds.length = G.nodes.length := by simp [Graph.nodeIds]
  have h1 := sampleAux_nodup s G.nodeIds (min n G.nodeIds.length) h
  have h2 := sampleAux_length s G.nodeIds (min n G.nodeIds.length)
  have h3 := fun x hx => sampleAux_mem s G.nodeIds (min n G.nodeIds.length) x hx
  refine ⟨by simpa [remove_random_entities, hlen] using h1, ?_, ?_, ?_, ?_⟩
  · simp only [remove_random_entities]
    rw [hlen] at h2 ⊢
    rw [h2]
    omega
  · intro x hx
    exact h3 x (by simpa [remove_random_entities, hlen] using hx)
  · simp only [remove_random_entities]
    rw [nodeIds_removeNodesFrom]
  · simp only [remove_random_entities]
    have hflen : ((G.removeNodesFrom
        (sampleAux s G.nodeIds (min n G.nodeIds.length)).1).nodes).length
        = ((G.nodeIds.filter
            (fun x => x ∉ (sampleAux s G.nodeIds (min n G.nodeIds.length)).1))).length := by
      have := nodeIds_removeNodesFrom G (sampleAux s G.nodeIds (min n G.nodeIds.length)).1
      have hh := congrArg List.length this
      simpa [Graph.nodeIds] using hh
    have hcount := length_filter_not_mem G.nodeIds
      (sampleAux s G.nodeIds (min n G.nodeIds.length)).1 h h1 h3
    rw [hflen]
    omega

theorem wf_remove_random_entities (s : Nat) (G : Graph) (n : Nat) (h : G.wf) :
    (remove_random_entities s G n).2.1.wf :=
  wf_removeNodesFrom G _ h

/-! ### add_random_entities -/

theorem add_random_entities_nodes (G : Graph) (n : Nat) :
    ∃ L : List (String × Attrs),
      ((add_random_entities G n).2).nodes = G.nodes ++ L ∧
      L.length = n ∧
      (∀ p ∈ L, ∃ j, 1 ≤ j ∧ p.1 = randId j) := by
  induction n with
  | zero => exact ⟨[], by simp [add_random_entities], rfl, by simp⟩
  | succ m ih =>
    obtain ⟨L, hL1, hL2, hL3⟩ := ih
    have hfresh := generate_unique_node_id_fresh (add_random_entities G m).2
    have hnot : (add_random_entities G m).2.hasNode
        (generate_unique_node_id (add_random_entities G m).2) = false := by
      rw [hasNode_false_iff]
      exact hfresh
    refine ⟨L ++ [(generate_unique_node_id (add_random_entities G m).2,
      [("type", .str "RandomEntity")])], ?_, by simp [hL2], ?_⟩
    · show ((add_random_entities G m).2.addNode _ _).nodes = _
      rw [addNode_of_not_hasNode _ _ _ hnot, hL1]
      simp
    · intro p hp
      simp only [List.mem_append, List.mem_singleton] at hp
      rcases hp with hp | rfl
      · exact hL3 p hp
      · obtain ⟨j, hj1, hj2⟩ := generate_unique_node_id_shape (add_random_entities G m).2
        exact ⟨j, hj1, by simp [hj2]⟩

theorem add_random_entities_length (G : Graph) (n : Nat) :
    ((add_random_entities G n).2).nodes.length = G.nodes.length + n := by
  obtain ⟨L, h1, h2, _⟩ := add_random_entities_nodes G n
  rw [h1]
  simp [h2]

theorem wf_add_random_entities (G : Graph) (n : Nat) (h : G.wf) :
    ((add_random_entities G n).2).wf := by
  induction n with
  | zero => exact h
  | succ m ih => exact wf_addNode _ _ _ ih

/-! ### remove_random_edges -/

def edgePairs (G : Graph) : List (String × String) := G.edges.map (fun e => (e.src, e.tgt))

theorem nodes_removeLastEdge_foldl (S : List (String × String)) (G : Graph) :
    (S.foldl (fun g p => g.removeLastEdge p.1 p.2) G).nodes = G.nodes := by
  refine foldl_preserves (fun g => g.nodes = G.nodes) _ ?_ S G rfl
  intro g p hg
  rw [← hg]
  rfl

theorem removeLastEdge_length (G : Graph) (u v : String)
    (hmem : (u, v) ∈ edgePairs G) :
    (G.removeLastEdge u v).edges.length + 1 = G.edges.length := by
  have hex : ∃ e ∈ G.edges.reverse, (fun e => e.src == u && e.tgt == v) e = true := by
    simp only [edgePairs, List.mem_map, Prod.mk.injEq] at hmem
    obtain ⟨e, he, hs, ht⟩ := hmem
    exact ⟨e, by simpa using he, by simp [hs, ht]⟩
  obtain ⟨e0, he0, hpe0⟩ := hex
  obtain ⟨e1, l₁, l₂, _, hp1, hsplit, herase⟩ :=
    @List.exists_of_eraseP Edge (fun e => e.src == u && e.tgt == v) G.edges.reverse e0 he0 hpe0
  simp only [Graph.removeLastEdge, herase]
  have := congrArg List.length hsplit
  simp only [List.length_reverse, List.length_append, List.length_cons] at this ⊢
  omega

theorem removeLastEdge_count (G : Graph) (u v : String) (p : String × String)
    (hmem : (u, v) ∈ edgePairs G) :
    (edgePairs (G.removeLastEdge u v)).count p + (if p = (u, v) then 1 else 0)
      = (edgePairs G).count p := by
  have hex : ∃ e ∈ G.edges.reverse, (fun e => e.src == u && e.tgt == v) e = true := by
    simp only [edgePairs, List.mem_map, Prod.mk.injEq] at hmem
    obtain ⟨e, he, hs, ht⟩ := hmem
    exact ⟨e, by simpa using he, by simp [hs, ht]⟩
  obtain ⟨e0, he0, hpe0⟩ := hex
  obtain ⟨e1, l₁, l₂, _, hp1, hsplit, herase⟩ :=
    @List.exists_of_eraseP Edge (fun e => e.src == u && e.tgt == v) G.edges.reverse e0 he0 hpe0
  have he1 : e1.src = u ∧ e1.tgt = v := by
    simpa using hp1
  have hG : edgePairs G = ((l₁ ++ e1 :: l₂).map (fun e => (e.src, e.tgt))).reverse := by
    have : G.edges = (l₁ ++ e1 :: l₂).reverse := by
      have := congrArg List.reverse hsplit
      simpa using this
    simp [edgePairs, this, List.map_reverse]
  have hG2 : edgePairs (G.removeLastEdge u v)
      = ((l₁ ++ l₂).map (fun e => (e.src, e.tgt))).reverse := by
    simp [edgePairs, Graph.removeLastEdge, herase, List.map_reverse]
  rw [hG, hG2]
  simp only [List.count_reverse, List.map_append, List.map_cons, List.count_append,
    List.count_cons]
  have : ((e1.src, e1.tgt) == p) = (p == (u, v)) := by
    rw [he1.1, he1.2]
    cases hpp : p == (u, v)
    · simp only [beq_eq_false_iff_ne] at hpp
      simp only [beq_eq_false_iff_ne]
      exact fun hq => hpp hq.symm
    · simp only [beq_iff_eq] at hpp
      simp [hpp]
  by_cases hp : p = (u, v)
  · have hbeq : ((u, v) == p) = true := by simp [hp]
    simp only [hp, if_pos rfl]
    rw [he1.1, he1.2]
    simp [hbeq]
    omega
  · have hbeq : ((u, v) == p) = false := by
      simp only [beq_eq_false_iff_ne]
      exact fun hq => hp hq.symm
    simp only [if_neg hp]
    rw [he1.1, he1.2]
    simp [hbeq]

theorem count_mem_pairs (S : List (String × String)) (G : Graph) (p : String × String)
    (hp : S.count p ≤ (edgePairs G).count p) (hmem : 0 < S.count p) : p ∈ edgePairs G := by
  have : 0 < (edgePairs G).count p := lt_of_lt_of_le hmem hp
  exact List.count_pos_iff.mp this

theorem foldl_removeLastEdge_length (S : List (String × String)) :
    ∀ (G : Graph), (∀ p, S.count p ≤ (edgePairs G).count p) →
    (S.foldl (fun g p => g.removeLastEdge p.1 p.2) G).edges.length + S.length
      = G.edges.length := by
  induction S with
  | nil => intro G _; simp
  | cons p0 rest ih =>
    intro G hinv
    have hc0 : 0 < (p0 :: rest).count p0 := by
      simp [List.count_cons]
    have hmem : p0 ∈ edgePairs G := count_mem_pairs _ G p0 (hinv p0) hc0
    have hlen := removeLastEdge_length G p0.1 p0.2 (by simpa using hmem)
    have hnext : ∀ p, rest.count p ≤ (edgePairs (G.removeLastEdge p0.1 p0.2)).count p := by
      intro p
      have hcnt := removeLastEdge_count G p0.1 p0.2 p (by simpa using hmem)
      have hS := hinv p
      rw [List.count_cons] at hS
      by_cases hpp : p = p0
      · have hb : (p0 == p) = true := by simp [hpp]
        rw [hb, if_pos rfl] at hS
        have : (if p = (p0.1, p0.2) then 1 else 0) = 1 := by simp [hpp]
        omega
      · have hb : (p0 == p) = false := by
          simp only [beq_eq_false_iff_ne]
          exact fun hq => hpp hq.symm
        rw [hb, if_neg (by simp)] at hS
        have : (if p = (p0.1, p0.2) then 1 else 0) = 0 := by
          simp only [ite_eq_right_iff]
          intro hq
          exact absurd (by simpa using hq) hpp
        omega
    have := ih (G.removeLastEdge p0.1 p0.2) hnext
    simp only [List.foldl_cons, List.length_cons]
    omega

theorem remove_random_edges_length (s : Nat) (G : Graph) (n : Nat) :
    (remove_random_edges s G n).1.edges.length + min n G.edges.length = G.edges.length := by
  have hinv : ∀ p, ((sampleAux s (edgePairs G) (min n (edgePairs G).length)).1).count p
      ≤ (edgePairs G).count p := fun p => sampleAux_count_le _ _ _ p
  have hfold := foldl_removeLastEdge_length
    (sampleAux s (edgePairs G) (min n (edgePairs G).length)).1 G hinv
  have hslen := sampleAux_length s (edgePairs G) (min n (edgePairs G).length)
  have hplen : (edgePairs G).length = G.edges.length := by simp [edgePairs]
  show (List.foldl (fun g p => g.removeLastEdge p.1 p.2) G
      (sampleAux s (edgePairs G) (min n (edgePairs G).length)).1).edges.length
      + min n G.edges.length = G.edges.length
  omega

theorem nodes_remove_random_edges (s : Nat) (G : Graph) (n : Nat) :
    (remove_random_edges s G n).1.nodes = G.nodes := by
  simp only [remove_random_edges]
  exact nodes_removeLastEdge_foldl _ G

theorem wf_remove_random_edges (s : Nat) (G : Graph) (n : Nat) (h : G.wf) :
    (remove_random_edges s G n).1.wf := by
  simp only [remove_random_edges]
  exact foldl_preserves Graph.wf _ (fun g p hg => wf_removeLastEdge g p.1 p.2 hg) _ G h

/-! ### add_random_edges -/

theorem length_two_pair {α : Type} (l : List α) (h : l.length = 2) : ∃ a b, l = [a, b] := by
  match l, h with
  | [a, b], _ => exact ⟨a, b, rfl⟩

theorem add_random_edges_nodes (s : Nat) (G : Graph) (n : Nat) (G2 : Graph) (s2 : Nat)
    (h : add_random_edges s G n = .ok (G2, s2)) : G2.nodes = G.nodes := by
  induction n generalizing G2 s2 with
  | zero =>
    simp only [add_random_edges] at h
    cases h
    rfl
  | succ m ih =>
    simp only [add_random_edges, bind, Except.bind] at h
    cases hr : add_random_edges s G m with
    | error e => rw [hr] at h; cases h
    | ok r =>
      rw [hr] at h
      dsimp only at h
      have hnodes := ih r.1 r.2 (by rw [hr])
      by_cases hl : r.1.nodeIds.length < 2
      · rw [if_pos hl] at h; cases h
      · rw [if_neg hl] at h
        have hlen2 : (sampleAux r.2 r.1.nodeIds 2).1.length = 2 := by
          rw [sampleAux_length]
          omega
        obtain ⟨a, b, hab⟩ := length_two_pair _ hlen2
        rw [hab] at h
        dsimp only at h
        have ha : a ∈ r.1.nodeIds := sampleAux_mem _ _ _ a (by rw [hab]; simp)
        have hb : b ∈ r.1.nodeIds := sampleAux_mem _ _ _ b (by rw [hab]; simp)
        have hG2 : G2 = r.1.addEdge a b none [("type", .str "randomRelation")] := by
          simp only [Except.ok.injEq, Prod.mk.injEq] at h
          exact h.1.symm
        rw [hG2, nodes_addEdge_of_hasNode _ _ _ _ _ ((hasNode_iff _ _).mpr ha)
          ((hasNode_iff _ _).mpr hb)]
        exact hnodes

theorem wf_add_random_edges (s : Nat) (G : Graph) (n : Nat) (G2 : Graph) (s2 : Nat)
    (h : add_random_edges s G n = .ok (G2, s2)) (hwf : G.wf) : G2.wf := by
  induction n generalizing G2 s2 with
  | zero =>
    simp only [add_random_edges] at h
    cases h
    exact hwf
  | succ m ih =>
    simp only [add_random_edges, bind, Except.bind] at h
    cases hr : add_random_edges s G m with
    | error e => rw [hr] at h; cases h
    | ok r =>
      rw [hr] at h
      dsimp only at h
      have hwfr := ih r.1 r.2 (by rw [hr])
      by_cases hl : r.1.nodeIds.length < 2
      · rw [if_pos hl] at h; cases h
      · rw [if_neg hl] at h
        have hlen2 : (sampleAux r.2 r.1.nodeIds 2).1.length = 2 := by
          rw [sampleAux_length]
          omega
        obtain ⟨a, b, hab⟩ := length_two_pair _ hlen2
        rw [hab] at h
        dsimp only at h
        have hG2 : G2 = r.1.addEdge a b none [("type", .str "randomRelation")] := by
          simp only [Except.ok.injEq, Prod.mk.injEq] at h
          exact h.1.symm
        rw [hG2]
        exact wf_addEdge _ _ _ _ _ hwfr

theorem add_random_edges_mem (s : Nat) (G : Graph) (n : Nat) (G2 : Graph) (s2 : Nat)
    (h : add_random_edges s G n = .ok (G2, s2)) (hnd : G.nodeIds.Nodup) :
    ∀ e ∈ G2.edges, e ∈ G.edges ∨
      (e.src ≠ e.tgt ∧ e.src ∈ G.nodeIds ∧ e.tgt ∈ G.nodeIds) := by
  induction n generalizing G2 s2 with
  | zero =>
    simp only [add_random_edges] at h
    cases h
    intro e he
    exact Or.inl he
  | succ m ih =>
    simp only [add_random_edges, bind, Except.bind] at h
    cases hr : add_random_edges s G m with
    | error e => rw [hr] at h; cases h
    | ok r =>
      rw [hr] at h
      dsimp only at h
      have hprev := ih r.1 r.2 (by rw [hr])
      have hnodes := add_random_edges_nodes s G m r.1 r.2 (by rw [hr])
      have hids : r.1.nodeIds = G.nodeIds := by simp [Graph.nodeIds, hnodes]
      by_cases hl : r.1.nodeIds.length < 2
      · rw [if_pos hl] at h; cases h
      · rw [if_neg hl] at h
        have hlen2 : (sampleAux r.2 r.1.nodeIds 2).1.length = 2 := by
          rw [sampleAux_length]
          omega
        obtain ⟨a, b, hab⟩ := length_two_pair _ hlen2
        rw [hab] at h
        dsimp only at h
        have hG2 : G2 = r.1.addEdge a b none [("type", .str "randomRelation")] := by
          simp only [Except.ok.injEq, Prod.mk.injEq] at h
          exact h.1.symm
        have hndpair : ([a, b] : List String).Nodup := by
          rw [← hab]
          exact sampleAux_nodup _ _ _ (by rw [hids]; exact hnd)
        have hne : a ≠ b := by
          simp only [List.nodup_cons, List.mem_singleton] at hndpair
          exact hndpair.1
        have ha : a ∈ G.nodeIds := by
          rw [← hids]
          exact sampleAux_mem _ _ _ a (by rw [hab]; simp)
        have hb : b ∈ G.nodeIds := by
          rw [← hids]
          exact sampleAux_mem _ _ _ b (by rw [hab]; simp)
        intro e he
        rw [hG2] at he
        rw [edges_addEdge_append r.1 a b _ ((hasNode_iff _ _).mpr (by rw [hids]; exact ha))
          ((hasNode_iff _ _).mpr (by rw [hids]; exact hb))] at he
        simp only [List.mem_append, List.mem_singleton] at he
        rcases he with he | rfl
        · exact hprev e he
        · exact Or.inr ⟨hne, ha, hb⟩

/-! ### json_to_networkx establishes well-formedness -/

theorem foldlM_ok_preserves {β : Type} (P : Graph → Prop)
    (step : Graph → β → Except String Graph)
    (hstep : ∀ g x g2, step g x = .ok g2 → P g → P g2) :
    ∀ (l : List β) (g G : Graph), l.foldlM step g = .ok G → P g → P G := by
  intro l
  induction l with
  | nil =>
    intro g G h hp
    simp only [List.foldlM] at h
    cases h
    exact hp
  | cons x t ih =>
    intro g G h hp
    simp only [List.foldlM, bind, Except.bind] at h
    cases hs : step g x with
    | error e => rw [hs] at h; cases h
    | ok g2 =>
      rw [hs] at h
      exact ih g2 G (by simpa using h) (hstep g x g2 hs hp)

theorem wf_empty : ({ nodes := [], edges := [] } : Graph).wf := by
  refine ⟨by simp [Graph.nodeIds], by simp [Graph.edgeTriples], ?_⟩
  intro e he
  simp at he

theorem json_to_networkx_wf (kg : KGJson) (G : Graph)
    (h : json_to_networkx kg = .ok G) : G.wf := by
  simp only [json_to_networkx, bind, Except.bind] at h
  cases h1 : (kg.entities.getD []).foldlM
      (fun (g : Graph) ent =>
        match ent.id with
        | none => Except.error "KeyError: id"
        | some node_id => Except.ok (g.addNode node_id ent.attrs))
      { nodes := [], edges := [] } with
  | error e => rw [h1] at h; cases h
  | ok G1 =>
    rw [h1] at h
    have hwf1 : G1.wf := by
      refine foldlM_ok_preserves Graph.wf _ ?_ _ _ _ h1 wf_empty
      intro g x g2 hs hp
      cases hx : x.id with
      | none => rw [hx] at hs; cases hs
      | some id =>
        rw [hx] at hs
        simp only [Except.ok.injEq] at hs
        rw [← hs]
        exact wf_addNode g id x.attrs hp
    dsimp only at h
    cases h2 : (kg.relations.getD []).foldlM
        (fun (g : Graph) rel =>
          match rel.source, rel.target with
          | some src, some tgt =>
            Except.ok (g.addEdge src tgt none (("type", rel.type.getD (.str "")) :: rel.attrs))
          | _, _ => Except.error "KeyError: source or target")
        G1 with
    | error e => rw [h2] at h; cases h
    | ok G2 =>
      rw [h2] at h
      have hwf2 : G2.wf := by
        refine foldlM_ok_preserves Graph.wf _ ?_ _ _ _ h2 hwf1
        intro g x g2 hs hp
        cases hx : x.source with
        | none => rw [hx] at hs; cases hs
        | some src =>
          cases hy : x.target with
          | none => rw [hx, hy] at hs; cases hs
          | some tgt =>
            rw [hx, hy] at hs
            simp only [Except.ok.injEq] at hs
            rw [← hs]
            exact wf_addEdge g src tgt none _ hp
      dsimp only at h
      simp only [pure, Except.pure, Except.ok.injEq] at h
      rw [← h]
      exact hwf2

/-! ### reassign_entity_ids: the three phases -/

theorem foldl_addNode_nodes (L : List (String × String)) :
    ∀ (g : Graph),
      (∀ p ∈ L, p.1 ∈ g.nodeIds) →
      ((L.map (fun p => p.2)).Nodup) →
      (∀ p ∈ L, p.2 ∉ g.nodeIds) →
      ∃ A : List (String × Attrs),
        (L.foldl (fun g p => if g.hasNode p.1 then g.addNode p.2 (g.nodeAttrs p.1) else g)
            g).nodes = g.nodes ++ A ∧
        A.map (fun q => q.1) = L.map (fun p => p.2) := by
  induction L with
  | nil =>
    intro g _ _ _
    exact ⟨[], by simp, by simp⟩
  | cons p0 rest ih =>
    intro g hkeys hnodup hfresh
    have hk0 : g.hasNode p0.1 = true := (hasNode_iff g p0.1).mpr (hkeys p0 (by simp))
    have hf0 : g.hasNode p0.2 = false := (hasNode_false_iff g p0.2).mpr (hfresh p0 (by simp))
    have hstep : (g.addNode p0.2 (g.nodeAttrs p0.1)).nodes
        = g.nodes ++ [(p0.2, g.nodeAttrs p0.1)] := by
      rw [addNode_of_not_hasNode _ _ _ hf0]
    have hids : (g.addNode p0.2 (g.nodeAttrs p0.1)).nodeIds = g.nodeIds ++ [p0.2] := by
      simp [Graph.nodeIds, hstep]
    simp only [List.map_cons, List.nodup_cons] at hnodup
    obtain ⟨hv0, hvrest⟩ := hnodup
    have hrec := ih (g.addNode p0.2 (g.nodeAttrs p0.1))
      (fun p hp => by
        rw [hids]
        exact List.mem_append.mpr (Or.inl (hkeys p (by simp [hp]))))
      hvrest
      (fun p hp => by
        rw [hids]
        intro hmem
        rcases List.mem_append.mp hmem with hmem | hmem
        · exact hfresh p (by simp [hp]) hmem
        · simp only [List.mem_singleton] at hmem
          exact hv0 (by rw [← hmem]; exact List.mem_map_of_mem _ hp))
    obtain ⟨A, hA1, hA2⟩ := hrec
    refine ⟨(p0.2, g.nodeAttrs p0.1) :: A, ?_, by simp [hA2]⟩
    simp only [List.foldl_cons, if_pos hk0]
    rw [hA1, hstep]
    simp

theorem closed_removeNode (g : Graph) (id : String) (h : g.closed) :
    (g.removeNode id).closed := by
  intro e he
  simp only [Graph.removeNode, List.mem_filter, decide_eq_true_eq] at he
  obtain ⟨hmem, hcond⟩ := he
  obtain ⟨hs, ht⟩ := h e hmem
  rw [nodeIds_removeNode]
  constructor <;> simp only [List.mem_filter, decide_eq_true_eq]
  · exact ⟨hs, by simpa using hcond.1⟩
  · exact ⟨ht, by simpa using hcond.2⟩

theorem foldl_removeNode_spec (L : List (String × String)) :
    ∀ (g : Graph), g.closed →
      (L.foldl (fun g p => if g.hasNode p.1 then g.removeNode p.1 else g) g).nodes
          = g.nodes.filter (fun q => q.1 ∉ L.map (fun p => p.1)) ∧
        (L.foldl (fun g p => if g.hasNode p.1 then g.removeNode p.1 else g) g).edges
          = g.edges.filter (fun e => e.src ∉ L.map (fun p => p.1)
              ∧ e.tgt ∉ L.map (fun p => p.1)) := by
  induction L with
  | nil =>
    intro g _
    constructor <;> simp
  | cons p0 rest ih =>
    intro g hclosed
    by_cases hk : g.hasNode p0.1 = true
    · obtain ⟨ihn, ihe⟩ := ih (g.removeNode p0.1) (closed_removeNode g p0.1 hclosed)
      simp only [List.foldl_cons, if_pos hk]
      constructor
      · rw [ihn]
        show (g.nodes.filter (fun q => q.1 ≠ p0.1)).filter
            (fun q => q.1 ∉ rest.map (fun p => p.1)) = _
        rw [List.filter_filter]
        refine List.filter_congr ?_
        intro q _
        by_cases h1 : q.1 = p0.1 <;> by_cases h2 : q.1 ∈ rest.map (fun p => p.1) <;>
          simp [h1, h2]
      · rw [ihe]
        show (g.edges.filter (fun e => e.src ≠ p0.1 ∧ e.tgt ≠ p0.1)).filter
            (fun e => e.src ∉ rest.map (fun p => p.1) ∧ e.tgt ∉ rest.map (fun p => p.1)) = _
        rw [List.filter_filter]
        refine List.filter_congr ?_
        intro e _
        by_cases h1 : e.src = p0.1 <;> by_cases h2 : e.src ∈ rest.map (fun p => p.1) <;>
          by_cases h3 : e.tgt = p0.1 <;> by_cases h4 : e.tgt ∈ rest.map (fun p => p.1) <;>
            simp [h1, h2, h3, h4]
    · have hnot : p0.1 ∉ g.nodeIds := (hasNode_false_iff g p0.1).mp (by simpa using hk)
      obtain ⟨ihn, ihe⟩ := ih g hclosed
      simp only [List.foldl_cons, if_neg hk]
      constructor
      · rw [ihn]
        refine List.filter_congr ?_
        intro q hq
        have hne : q.1 ≠ p0.1 := by
          intro hcontra
          exact hnot (hcontra ▸ List.mem_map_of_mem (fun p => p.1) hq)
        by_cases h2 : q.1 ∈ rest.map (fun p => p.1) <;> simp [hne, h2]
      · rw [ihe]
        refine List.filter_congr ?_
        intro e he
        obtain ⟨hs, ht⟩ := hclosed e he
        have hnes : e.src ≠ p0.1 := fun hcontra => hnot (hcontra ▸ hs)
        have hnet : e.tgt ≠ p0.1 := fun hcontra => hnot (hcontra ▸ ht)
        by_cases h2 : e.src ∈ rest.map (fun p => p.1) <;>
          by_cases h4 : e.tgt ∈ rest.map (fun p => p.1) <;> simp [hnes, hnet, h2, h4]

theorem foldl_guardedAddEdge_nodes (L : List Edge) (M : List (String × String)) (g : Graph) :
    (L.foldl (fun g e =>
      if g.hasNode ((M.lookup e.src).getD e.src) && g.hasNode ((M.lookup e.tgt).getD e.tgt)
      then g.addEdge ((M.lookup e.src).getD e.src) ((M.lookup e.tgt).getD e.tgt)
        (some e.key) e.attrs
      else g) g).nodes = g.nodes := by
  refine foldl_preserves (fun g2 => g2.nodes = g.nodes) _ ?_ L g rfl
  intro g2 e hg2
  by_cases hc : g2.hasNode ((M.lookup e.src).getD e.src)
      && g2.hasNode ((M.lookup e.tgt).getD e.tgt)
  · rw [if_pos hc]
    simp only [Bool.and_eq_true] at hc
    rw [nodes_addEdge_of_hasNode _ _ _ _ _ hc.1 hc.2]
    exact hg2
  · rw [if_neg hc]
    exact hg2

theorem wf_reassign (G : Graph) (rem add : List String) (n : Nat) (h : G.wf) :
    (reassign_entity_ids G rem add n).1.wf := by
  unfold reassign_entity_ids
  refine foldl_preserves Graph.wf _ ?_ _ _ (foldl_preserves Graph.wf _ ?_ _ _
    (foldl_preserves Graph.wf _ ?_ _ _ h))
  · intro g e hg
    by_cases hc : g.hasNode (((mkMapping (G.nodeIds.filter (fun id =>
        !(rem.contains id) && !(add.contains id))) (n + 1)).lookup e.src).getD e.src)
        && g.hasNode (((mkMapping (G.nodeIds.filter (fun id =>
        !(rem.contains id) && !(add.contains id))) (n + 1)).lookup e.tgt).getD e.tgt)
    · rw [if_pos hc]
      exact wf_addEdge _ _ _ _ _ hg
    · rw [if_neg hc]
      exact hg
  · intro g p hg
    by_cases hc : g.hasNode p.1 = true
    · rw [if_pos hc]
      exact wf_removeNode _ _ hg
    · rw [if_neg hc]
      exact hg
  · intro g p hg
    by_cases hc : g.hasNode p.1 = true
    · rw [if_pos hc]
      exact wf_addNode _ _ _ hg
    · rw [if_neg hc]
      exact hg

theorem reassign_count (G : Graph) (rem add : List String) (n : Nat) (hwf : G.wf)
    (hconv : ∀ id ∈ G.nodeIds,
      (∃ i, 1 ≤ i ∧ i ≤ n ∧ id = eId i) ∨ (∃ j, id = randId j)) :
    (reassign_entity_ids G rem add n).1.nodes.length = G.nodes.length := by
  set surv := G.nodeIds.filter
    (fun id => !(rem.contains id) && !(add.contains id)) with hsurv
  set M := mkMapping surv (n + 1) with hM
  set F1 := M.foldl (fun g p => if g.hasNode p.1 then g.addNode p.2 (g.nodeAttrs p.1) else g)
    G with hF1
  set F2 := M.foldl (fun g p => if g.hasNode p.1 then g.removeNode p.1 else g) F1 with hF2
  have hgoal : (reassign_entity_ids G rem add n).1
      = G.edges.foldl (fun g e =>
          if g.hasNode ((M.lookup e.src).getD e.src)
              && g.hasNode ((M.lookup e.tgt).getD e.tgt)
          then g.addEdge ((M.lookup e.src).getD e.src) ((M.lookup e.tgt).getD e.tgt)
            (some e.key) e.attrs
          else g) F2 := rfl
  rw [hgoal, foldl_guardedAddEdge_nodes]
  have hsub : surv ⊆ G.nodeIds := fun x hx => List.mem_of_mem_filter hx
  have hnds : surv.Nodup := hwf.1.filter _
  have hkeysM : M.map (fun p => p.1) = surv := mkMapping_map_fst _ _
  have hvalsnd : (M.map (fun p => p.2)).Nodup := mkMapping_values_nodup surv (n + 1)
  have hvfresh : ∀ p ∈ M, p.2 ∉ G.nodeIds := by
    intro p hp hmem
    obtain ⟨j, hj1, hj2, hj3⟩ := mkMapping_values_shape surv (n + 1) p hp
    rcases hconv p.2 hmem with ⟨i, hi1, hi2, hie⟩ | ⟨k, hk⟩
    · rw [hj3] at hie
      have := eId_inj j i hie
      omega
    · rw [hj3] at hk
      exact eId_ne_randId j k hk
  have hkeys : ∀ p ∈ M, p.1 ∈ G.nodeIds := by
    intro p hp
    exact hsub (hkeysM ▸ List.mem_map_of_mem (fun p => p.1) hp)
  obtain ⟨A, hA1, hA2⟩ := foldl_addNode_nodes M G hkeys hvalsnd hvfresh
  have hwfF1 : F1.wf := by
    rw [hF1]
    refine foldl_preserves Graph.wf _ ?_ M G hwf
    intro g p hg
    by_cases hc : g.hasNode p.1 = true
    · rw [if_pos hc]; exact wf_addNode _ _ _ hg
    · rw [if_neg hc]; exact hg
  obtain ⟨h2n, _⟩ := foldl_removeNode_spec M F1 hwfF1.2.2
  have hAfresh : ∀ q ∈ A, q.1 ∉ G.nodeIds := by
    intro q hq
    have : q.1 ∈ A.map (fun q => q.1) := List.mem_map_of_mem _ hq
    rw [hA2] at this
    obtain ⟨p, hp, hpe⟩ := List.mem_map.mp this
    rw [← hpe]
    exact hvfresh p hp
  have hApass : A.filter (fun q => q.1 ∉ M.map (fun p => p.1)) = A := by
    refine List.filter_eq_self.mpr ?_
    intro q hq
    simp only [decide_eq_true_eq, hkeysM]
    intro hcontra
    exact hAfresh q hq (hsub hcontra)
  have hsplit : F2.nodes
      = G.nodes.filter (fun q => q.1 ∉ M.map (fun p => p.1)) ++ A := by
    rw [h2n, hA1, List.filter_append, hApass]
  have hflen : (G.nodes.filter (fun q => q.1 ∉ M.map (fun p => p.1))).length
      + surv.length = G.nodes.length := by
    have hmapf : (G.nodes.filter (fun q => q.1 ∉ M.map (fun p => p.1))).map (fun p => p.1)
        = G.nodeIds.filter (fun x => x ∉ M.map (fun p => p.1)) :=
      map_fst_filter (fun x => decide (x ∉ M.map (fun p => p.1))) G.nodes
    have hlen1 : (G.nodes.filter (fun q => q.1 ∉ M.map (fun p => p.1))).length
        = (G.nodeIds.filter (fun x => x ∉ M.map (fun p => p.1))).length := by
      have := congrArg List.length hmapf
      simpa using this
    rw [hlen1, hkeysM]
    have hGlen : G.nodeIds.length = G.nodes.length := by simp [Graph.nodeIds]
    have := length_filter_not_mem G.nodeIds surv hwf.1 hnds hsub
    omega
  have hAlen : A.length = surv.length := by
    have h1 := congrArg List.length hA2
    have h2 := mkMapping_length surv (n + 1)
    simpa [hM] using h1.trans (by simpa using congrArg List.length hkeysM)
  rw [hsplit]
  simp only [List.length_append]
  omega

/-! ### The content passes only touch attribute values -/

theorem renameNodeStep_struct (P : LLMProvider) (g : Graph) (node : String × Attrs) :
    (renameNodeStep P g node).nodeIds = g.nodeIds ∧
    (renameNodeStep P g node).edges = g.edges := by
  unfold renameNodeStep
  constructor <;>
  · repeat' split
    all_goals dsimp only
    all_goals repeat' split
    all_goals simp [nodeIds_updateNode, edges_updateNode]

theorem rename_entities_struct (P : LLMProvider) (G : Graph) :
    (rename_entities_with_llm P G).nodeIds = G.nodeIds ∧
    (rename_entities_with_llm P G).edges = G.edges := by
  unfold rename_entities_with_llm
  refine foldl_preserves (fun g => g.nodeIds = G.nodeIds ∧ g.edges = G.edges) _ ?_
    G.nodes G ⟨rfl, rfl⟩
  intro g node hg
  obtain ⟨h1, h2⟩ := renameNodeStep_struct P g node
  exact ⟨h1.trans hg.1, h2.trans hg.2⟩

theorem renameEdgeStep_struct (P : LLMProvider) (g : Graph) (e : Edge) :
    (renameEdgeStep P g e).nodes = g.nodes ∧
    (renameEdgeStep P g e).edgeTriples = g.edgeTriples := by
  unfold renameEdgeStep
  constructor <;>
  · dsimp only
    repeat' split
    all_goals simp [nodes_updateEdge, edgeTriples_updateEdge]

theorem rename_relations_struct (P : LLMProvider) (G : Graph) :
    (rename_relations_with_llm P G).nodes = G.nodes ∧
    (rename_relations_with_llm P G).edgeTriples = G.edgeTriples := by
  unfold rename_relations_with_llm
  refine foldl_preserves (fun g => g.nodes = G.nodes ∧ g.edgeTriples = G.edgeTriples) _ ?_
    G.edges G ⟨rfl, rfl⟩
  intro g e hg
  obtain ⟨h1, h2⟩ := renameEdgeStep_struct P g e
  exact ⟨h1.trans hg.1, h2.trans hg.2⟩

theorem perturbNodeStep_struct (P : LLMProvider) (un ud : Bool) (g : Graph)
    (node : String × Attrs) :
    (perturbNodeStep P un ud g node).nodeIds = g.nodeIds ∧
    (perturbNodeStep P un ud g node).edges = g.edges := by
  unfold perturbNodeStep
  constructor <;>
  · repeat' split
    all_goals dsimp only
    all_goals repeat' split
    all_goals simp [nodeIds_updateNode, edges_updateNode]

theorem perturb_entities_struct (P : LLMProvider) (un ud : Bool) (G : Graph) :
    (perturb_entities_with_llm P un ud G).nodeIds = G.nodeIds ∧
    (perturb_entities_with_llm P un ud G).edges = G.edges := by
  unfold perturb_entities_with_llm
  refine foldl_preserves (fun g => g.nodeIds = G.nodeIds ∧ g.edges = G.edges) _ ?_
    G.nodes G ⟨rfl, rfl⟩
  intro g node hg
  obtain ⟨h1, h2⟩ := perturbNodeStep_struct P un ud g node
  exact ⟨h1.trans hg.1, h2.trans hg.2⟩

/-- The structural content of a graph: node identifiers, edge endpoint pairs,
node count, and closure.  The content passes preserve it. -/
def structEq (G2 G : Graph) : Prop :=
  G2.nodeIds = G.nodeIds ∧ edgePairs G2 = edgePairs G ∧
  G2.nodes.length = G.nodes.length ∧ (G.closed → G2.closed)

theorem structEq_refl (G : Graph) : structEq G G := ⟨rfl, rfl, rfl, fun h => h⟩

theorem structEq_trans {G1 G2 G3 : Graph} (h1 : structEq G1 G2) (h2 : structEq G2 G3) :
    structEq G1 G3 :=
  ⟨h1.1.trans h2.1, h1.2.1.trans h2.2.1, h1.2.2.1.trans h2.2.2.1,
    fun h => h1.2.2.2 (h2.2.2.2 h)⟩

theorem structEq_of_nodePass {G2 G : Graph} (hn : G2.nodeIds = G.nodeIds)
    (he : G2.edges = G.edges) : structEq G2 G := by
  refine ⟨hn, by simp [edgePairs, he], ?_, ?_⟩
  · have := congrArg List.length hn
    simpa [Graph.nodeIds] using this
  · intro hc e hemem
    rw [he] at hemem
    rw [hn]
    exact hc e hemem

theorem edgePairs_eq_of_triples {G2 G : Graph} (h : G2.edgeTriples = G.edgeTriples) :
    edgePairs G2 = edgePairs G := by
  have h1 : edgePairs G2 = G2.edgeTriples.map (fun t => (t.1, t.2.1)) := by
    simp [edgePairs, Graph.edgeTriples, List.map_map]
  have h2 : edgePairs G = G.edgeTriples.map (fun t => (t.1, t.2.1)) := by
    simp [edgePairs, Graph.edgeTriples, List.map_map]
  rw [h1, h2, h]

theorem structEq_of_edgePass {G2 G : Graph} (hn : G2.nodes = G.nodes)
    (ht : G2.edgeTriples = G.edgeTriples) : structEq G2 G := by
  refine ⟨by simp [Graph.nodeIds, hn], edgePairs_eq_of_triples ht, by simp [hn], ?_⟩
  intro hc e hemem
  have htr : (e.src, e.tgt, e.key) ∈ G2.edgeTriples :=
    List.mem_map_of_mem (fun e => (e.src, e.tgt, e.key)) hemem
  rw [ht] at htr
  simp only [Graph.edgeTriples, List.mem_map, Prod.mk.injEq] at htr
  obtain ⟨e0, he0, hs, htg, _⟩ := htr
  obtain ⟨h1, h2⟩ := hc e0 he0
  constructor
  · show e.src ∈ Graph.nodeIds _
    simp only [Graph.nodeIds, hn]
    rw [← hs]
    exact h1
  · show e.tgt ∈ Graph.nodeIds _
    simp only [Graph.nodeIds, hn]
    rw [← htg]
    exact h2

theorem structEq_passes (cfg : Config) (P : LLMProvider) (G : Graph) :
    structEq
      (if cfg.llm_perturb_entities then
        perturb_entities_with_llm P cfg.update_name cfg.update_description
          (if cfg.llm_rename_relations then
            rename_relations_with_llm P
              (if cfg.llm_rename_entities then rename_entities_with_llm P G else G)
          else (if cfg.llm_rename_entities then rename_entities_with_llm P G else G))
      else (if cfg.llm_rename_relations then
            rename_relations_with_llm P
              (if cfg.llm_rename_entities then rename_entities_with_llm P G else G)
          else (if cfg.llm_rename_entities then rename_entities_with_llm P G else G)))
      G := by
  have h5 : structEq (if cfg.llm_rename_entities then rename_entities_with_llm P G else G) G := by
    by_cases hc : cfg.llm_rename_entities
    · rw [if_pos hc]
      obtain ⟨h1, h2⟩ := rename_entities_struct P G
      exact structEq_of_nodePass h1 h2
    · rw [if_neg hc]
      exact structEq_refl G
  set G5 := if cfg.llm_rename_entities then rename_entities_with_llm P G else G
  have h6 : structEq (if cfg.llm_rename_relations then rename_relations_with_llm P G5 else G5)
      G5 := by
    by_cases hc : cfg.llm_rename_relations
    · rw [if_pos hc]
      obtain ⟨h1, h2⟩ := rename_relations_struct P G5
      exact structEq_of_edgePass h1 h2
    · rw [if_neg hc]
      exact structEq_refl G5
  set G6 := if cfg.llm_rename_relations then rename_relations_with_llm P G5 else G5
  have h7 : structEq (if cfg.llm_perturb_entities then
      perturb_entities_with_llm P cfg.update_name cfg.update_description G6 else G6) G6 := by
    by_cases hc : cfg.llm_perturb_entities
    · rw [if_pos hc]
      obtain ⟨h1, h2⟩ := perturb_entities_struct P cfg.update_name cfg.update_description G6
      exact structEq_of_nodePass h1 h2
    · rw [if_neg hc]
      exact structEq_refl G6
  exact structEq_trans (structEq_trans h7 h6) h5

/-! ### Serialization projections -/

theorem out_entities_ids (G : Graph) :
    (networkx_to_json G).entities.map (fun e => e.id) = G.nodeIds := by
  simp [networkx_to_json, Graph.nodeIds, List.map_map]

theorem out_rel_pairs (G : Graph) :
    (networkx_to_json G).relations.map (fun r => (r.source, r.target)) = edgePairs G := by
  simp [networkx_to_json, edgePairs, List.map_map]

theorem out_entities_len (G : Graph) :
    (networkx_to_json G).entities.length = G.nodes.length := by
  simp [networkx_to_json]

theorem out_closed (G : Graph) (h : G.closed) :
    ∀ r ∈ (networkx_to_json G).relations,
      (∃ ent ∈ (networkx_to_json G).entities, ent.id = r.source) ∧
      (∃ ent ∈ (networkx_to_json G).entities, ent.id = r.target) := by
  intro r hr
  simp only [networkx_to_json, List.mem_map] at hr
  obtain ⟨e, he, rfl⟩ := hr
  obtain ⟨h1, h2⟩ := h e he
  simp only [Graph.nodeIds, List.mem_map] at h1 h2
  obtain ⟨p1, hp1, he1⟩ := h1
  obtain ⟨p2, hp2, he2⟩ := h2
  constructor
  · exact ⟨{ id := p1.1, attrs := p1.2 }, by
      simp only [networkx_to_json, List.mem_map]
      exact ⟨p1, hp1, rfl⟩, he1⟩
  · exact ⟨{ id := p2.1, attrs := p2.2 }, by
      simp only [networkx_to_json, List.mem_map]
      exact ⟨p2, hp2, rfl⟩, he2⟩

/-! ### Inversion of the perturbation pipeline -/

theorem perturb_inversion (cfg : Config) (P : LLMProvider) (kg : KGJson) (s : Nat)
    (out : OutKG) (m : List (String × String))
    (h : perturb cfg P kg s = .ok (out, m)) :
    ∃ Gs G7, perturbStructural cfg kg s = .ok (Gs, m) ∧ out = networkx_to_json G7 ∧
      structEq G7 Gs := by
  simp only [perturb, bind, Except.bind] at h
  cases hs : perturbStructural cfg kg s with
  | error e => rw [hs] at h; cases h
  | ok r =>
    rw [hs] at h
    dsimp only at h
    simp only [pure, Except.pure, Except.ok.injEq, Prod.mk.injEq] at h
    obtain ⟨hout, hm⟩ := h
    refine ⟨r.1, _, ?_, hout.symm, structEq_passes cfg P r.1⟩
    rw [← hm]

theorem perturbStructural_inversion (cfg : Config) (kg : KGJson) (s : Nat)
    (G : Graph) (m : List (String × String))
    (h : perturbStructural cfg kg s = .ok (G, m)) :
    ∃ (G0 : Graph) (removed added : List String) (G4 : Graph),
      json_to_networkx kg = .ok G0 ∧
      G4.wf ∧
      G = (reassign_entity_ids G4 removed added G0.nodes.length).1 ∧
      m = (reassign_entity_ids G4 removed added G0.nodes.length).2 ∧
      G4.nodes.length + min cfg.remove_entities G0.nodes.length
        = G0.nodes.length + cfg.add_entities ∧
      (∀ id ∈ G4.nodeIds, id ∈ G0.nodeIds ∨ ∃ j, 1 ≤ j ∧ id = randId j) := by
  simp only [perturbStructural, bind, Except.bind] at h
  cases hj : json_to_networkx kg with
  | error e => rw [hj] at h; cases h
  | ok G0 =>
    rw [hj] at h
    dsimp only at h
    have hwf0 : G0.wf := json_to_networkx_wf kg G0 hj
    set r1 := (if cfg.remove_entities ≠ 0 then remove_random_entities s G0 cfg.remove_entities
      else ([], G0, s)) with hr1def
    set r2 := (if cfg.add_entities ≠ 0 then add_random_entities r1.2.1 cfg.add_entities
      else (none, r1.2.1)) with hr2def
    set r3 := (if cfg.remove_edges ≠ 0 then remove_random_edges r1.2.2 r2.2 cfg.remove_edges
      else (r2.2, r1.2.2)) with hr3def
    have hwf1 : r1.2.1.wf := by
      rw [hr1def]
      by_cases hc : cfg.remove_entities ≠ 0
      · rw [if_pos hc]
        exact wf_remove_random_entities s G0 cfg.remove_entities hwf0
      · rw [if_neg hc]
        exact hwf0
    have hcount1 : r1.2.1.nodes.length + min cfg.remove_entities G0.nodes.length
        = G0.nodes.length := by
      rw [hr1def]
      by_cases hc : cfg.remove_entities ≠ 0
      · rw [if_pos hc]
        exact (remove_random_entities_spec s G0 cfg.remove_entities hwf0.1).2.2.2.2
      · rw [if_neg hc]
        push_neg at hc
        simp [hc]
    have hsub1 : ∀ id ∈ r1.2.1.nodeIds, id ∈ G0.nodeIds := by
      rw [hr1def]
      by_cases hc : cfg.remove_entities ≠ 0
      · rw [if_pos hc]
        intro id hid
        have := (remove_random_entities_spec s G0 cfg.remove_entities hwf0.1).2.2.2.1
        rw [this] at hid
        exact List.mem_of_mem_filter hid
      · rw [if_neg hc]
        intro id hid
        exact hid
    have hwf2 : r2.2.wf := by
      rw [hr2def]
      by_cases hc : cfg.add_entities ≠ 0
      · rw [if_pos hc]
        exact wf_add_random_entities r1.2.1 cfg.add_entities hwf1
      · rw [if_neg hc]
        exact hwf1
    have hcount2 : r2.2.nodes.length = r1.2.1.nodes.length + cfg.add_entities := by
      rw [hr2def]
      by_cases hc : cfg.add_entities ≠ 0
      · rw [if_pos hc]
        exact add_random_entities_length r1.2.1 cfg.add_entities
      · rw [if_neg hc]
        push_neg at hc
        simp [hc]
    have hprov2 : ∀ id ∈ r2.2.nodeIds, id ∈ r1.2.1.nodeIds ∨ ∃ j, 1 ≤ j ∧ id = randId j := by
      rw [hr2def]
      by_cases hc : cfg.add_entities ≠ 0
      · rw [if_pos hc]
        intro id hid
        obtain ⟨L, hL1, _, hL3⟩ := add_random_entities_nodes r1.2.1 cfg.add_entities
        simp only [Graph.nodeIds, hL1, List.map_append, List.mem_append] at hid
        rcases hid with hid | hid
        · exact Or.inl hid
        · simp only [List.mem_map] at hid
          obtain ⟨p, hp, rfl⟩ := hid
          obtain ⟨j, hj1, hj2⟩ := hL3 p hp
          exact Or.inr ⟨j, hj1, hj2⟩
      · rw [if_neg hc]
        intro id hid
        exact Or.inl hid
    have hnodes3 : r3.1.nodes = r2.2.nodes := by
      rw [hr3def]
      by_cases hc : cfg.remove_edges ≠ 0
      · rw [if_pos hc]
        exact nodes_remove_random_edges r1.2.2 r2.2 cfg.remove_edges
      · rw [if_neg hc]
    have hwf3 : r3.1.wf := by
      rw [hr3def]
      by_cases hc : cfg.remove_edges ≠ 0
      · rw [if_pos hc]
        exact wf_remove_random_edges r1.2.2 r2.2 cfg.remove_edges hwf2
      · rw [if_neg hc]
        exact hwf2
    by_cases hadd : cfg.add_edges ≠ 0
    · rw [if_pos hadd] at h
      cases hr4 : add_random_edges r3.2 r3.1 cfg.add_edges with
      | error e => rw [hr4] at h; cases h
      | ok r4 =>
        rw [hr4] at h
        dsimp only at h
        simp only [pure, Except.pure, Except.ok.injEq] at h
        have hG : G = (reassign_entity_ids r4.1 r1.1 r2.1.toList G0.nodes.length).1 := by
          rw [h]
        have hm : m = (reassign_entity_ids r4.1 r1.1 r2.1.toList G0.nodes.length).2 := by
          rw [h]
        have hnodes4 : r4.1.nodes = r3.1.nodes :=
          add_random_edges_nodes r3.2 r3.1 cfg.add_edges r4.1 r4.2 (by rw [hr4])
        have hwf4 : r4.1.wf :=
          wf_add_random_edges r3.2 r3.1 cfg.add_edges r4.1 r4.2 (by rw [hr4]) hwf3
        refine ⟨G0, r1.1, r2.1.toList, r4.1, rfl, hwf4, hG, hm, ?_, ?_⟩
        · have : r4.1.nodes.length = r2.2.nodes.length := by rw [hnodes4, hnodes3]
          omega
        · intro id hid
          have hid2 : id ∈ r2.2.nodeIds := by
            simpa [Graph.nodeIds, hnodes4, hnodes3] using hid
          rcases hprov2 id hid2 with hh | hh
          · exact Or.inl (hsub1 id hh)
          · exact Or.inr hh
    · rw [if_neg hadd] at h
      simp only [pure, Except.pure, Except.ok.injEq] at h
      have hG : G = (reassign_entity_ids r3.1 r1.1 r2.1.toList G0.nodes.length).1 := by
        rw [h]
      have hm : m = (reassign_entity_ids r3.1 r1.1 r2.1.toList G0.nodes.length).2 := by
        rw [h]
      refine ⟨G0, r1.1, r2.1.toList, r3.1, rfl, hwf3, hG, hm, ?_, ?_⟩
      · have : r3.1.nodes.length = r2.2.nodes.length := by rw [hnodes3]
        omega
      · intro id hid
        have hid2 : id ∈ r2.2.nodeIds := by
          simpa [Graph.nodeIds, hnodes3] using hid
        rcases hprov2 id hid2 with hh | hh
        · exact Or.inl (hsub1 id hh)
        · exact Or.inr hh

/-! ### The content passes act item by item

`foldl_nodeUpdate_eq` turns the imperative loop over nodes into a pointwise
map: each node receives the update decided from its own attribute bag,
independent of every other item. -/

theorem nodup_key_eq {l : List (String × Attrs)} (hnd : (l.map (fun p => p.1)).Nodup)
    {p q : String × Attrs} (hp : p ∈ l) (hq : q ∈ l) (h : p.1 = q.1) : p = q := by
  induction l with
  | nil => simp at hp
  | cons x t ih =>
    simp only [List.map_cons, List.nodup_cons] at hnd
    simp only [List.mem_cons] at hp hq
    rcases hp with rfl | hp <;> rcases hq with rfl | hq
    · rfl
    · have hm : q.1 ∈ List.map (fun p => p.1) t := List.mem_map_of_mem _ hq
      rw [← h] at hm
      exact absurd hm hnd.1
    · have hm : p.1 ∈ List.map (fun p => p.1) t := List.mem_map_of_mem _ hp
      rw [h] at hm
      exact absurd hm hnd.1
    · exact ih hnd.2 hp hq

theorem foldl_nodeUpdate_eq (D : Attrs → Option (Attrs → Attrs)) :
    ∀ (l : List (String × Attrs)) (g : Graph),
      (g.nodes.map (fun p => p.1)).Nodup →
      (∀ p ∈ l, p ∈ g.nodes) →
      ((l.map (fun p => p.1)).Nodup) →
      (l.foldl (fun g node =>
          match D node.2 with
          | some f => g.updateNode node.1 f
          | none => g) g).nodes =
        g.nodes.map (fun q => if q.1 ∈ l.map (fun p => p.1) then
          (q.1, match D q.2 with | some f => f q.2 | none => q.2) else q) := by
  intro l
  induction l with
  | nil =>
    intro g _ _ _
    simp only [List.foldl_nil, List.map_nil]
    rw [List.map_congr_left (fun q _ => by simp : ∀ q ∈ g.nodes,
      (if q.1 ∈ ([] : List String) then
        (q.1, match D q.2 with | some f => f q.2 | none => q.2) else q) = q)]
    simp
  | cons p0 rest ih =>
    intro g hgnd hsub hlnd
    simp only [List.map_cons, List.nodup_cons] at hlnd
    obtain ⟨hl0, hlrest⟩ := hlnd
    have hp0 : p0 ∈ g.nodes := hsub p0 (by simp)
    simp only [List.foldl_cons, List.map_cons]
    cases hD : D p0.2 with
    | none =>
      rw [ih g hgnd (fun p hp => hsub p (by simp [hp])) hlrest]
      refine List.map_congr_left ?_
      intro q hq
      by_cases hqe : q.1 = p0.1
      · have hqp : q = p0 := nodup_key_eq hgnd hq hp0 hqe
        subst hqp
        simp [hD, hl0]
      · by_cases hm : q.1 ∈ rest.map (fun p => p.1)
        · rw [if_pos hm, if_pos (List.mem_cons.mpr (Or.inr hm))]
        · rw [if_neg hm, if_neg (fun hc => (List.mem_cons.mp hc).elim hqe hm)]
    | some f =>
      have hg2nd : ((g.updateNode p0.1 f).nodes.map (fun p => p.1)).Nodup := by
        have h1 : (g.updateNode p0.1 f).nodes.map (fun p => p.1)
            = g.nodes.map (fun p => p.1) := nodeIds_updateNode g p0.1 f
        rw [h1]
        exact hgnd
      have hsub2 : ∀ p ∈ rest, p ∈ (g.updateNode p0.1 f).nodes := by
        intro p hp
        have hpg : p ∈ g.nodes := hsub p (by simp [hp])
        have hne : p.1 ≠ p0.1 := by
          intro hc
          exact hl0 (hc ▸ List.mem_map_of_mem (fun p => p.1) hp)
        have heq : (fun q : String × Attrs => if q.1 = p0.1 then (q.1, f q.2) else q) p = p := by
          simp [hne]
        rw [Graph.updateNode]
        exact heq ▸ List.mem_map_of_mem _ hpg
      rw [ih (g.updateNode p0.1 f) hg2nd hsub2 hlrest]
      show (g.nodes.map fun q => if q.1 = p0.1 then (q.1, f q.2) else q).map _ = _
      rw [List.map_map]
      refine List.map_congr_left ?_
      intro q hq
      simp only [Function.comp]
      by_cases hqe : q.1 = p0.1
      · have hqp : q = p0 := nodup_key_eq hgnd hq hp0 hqe
        subst hqp
        simp [hD, hl0]
      · rw [if_neg hqe]
        by_cases hm : q.1 ∈ rest.map (fun p => p.1)
        · rw [if_pos hm, if_pos (List.mem_cons.mpr (Or.inr hm))]
        · rw [if_neg hm, if_neg (fun hc => (List.mem_cons.mp hc).elim hqe hm)]

def edgeTriple (e : Edge) : String × String × Nat := (e.src, e.tgt, e.key)

theorem nodup_triple_eq {l : List Edge} (hnd : (l.map edgeTriple).Nodup)
    {p q : Edge} (hp : p ∈ l) (hq : q ∈ l) (h : edgeTriple p = edgeTriple q) : p = q := by
  induction l with
  | nil => simp at hp
  | cons x t ih =>
    simp only [List.map_cons, List.nodup_cons] at hnd
    simp only [List.mem_cons] at hp hq
    rcases hp with rfl | hp <;> rcases hq with rfl | hq
    · rfl
    · have hm : edgeTriple q ∈ List.map edgeTriple t := List.mem_map_of_mem _ hq
      rw [← h] at hm
      exact absurd hm hnd.1
    · have hm : edgeTriple p ∈ List.map edgeTriple t := List.mem_map_of_mem _ hp
      rw [h] at hm
      exact absurd hm hnd.1
    · exact ih hnd.2 hp hq

theorem updateEdge_eq_map (g : Graph) (u v : String) (k : Nat) (f : Attrs → Attrs) :
    (g.updateEdge u v k f).edges = g.edges.map (fun e =>
      if edgeTriple e = (u, v, k) then { e with attrs := f e.attrs } else e) := by
  simp only [Graph.updateEdge]
  refine List.map_congr_left ?_
  intro e _
  by_cases hc : e.src = u ∧ e.tgt = v ∧ e.key = k
  · rw [if_pos hc, if_pos (by simp [edgeTriple, hc.1, hc.2.1, hc.2.2])]
  · rw [if_neg hc, if_neg (by
      intro hcontra
      simp only [edgeTriple, Prod.mk.injEq] at hcontra
      exact hc ⟨hcontra.1, hcontra.2.1, hcontra.2.2⟩)]

theorem foldl_edgeUpdate_eq (D : Attrs → Option (Attrs → Attrs)) :
    ∀ (l : List Edge) (g : Graph),
      (g.edges.map edgeTriple).Nodup →
      (∀ e ∈ l, e ∈ g.edges) →
      ((l.map edgeTriple).Nodup) →
      (l.foldl (fun g e =>
          match D e.attrs with
          | some f => g.updateEdge e.src e.tgt e.key f
          | none => g) g).edges =
        g.edges.map (fun e2 => if edgeTriple e2 ∈ l.map edgeTriple then
          { e2 with attrs := match D e2.attrs with | some f => f e2.attrs | none => e2.attrs }
          else e2) := by
  intro l
  induction l with
  | nil =>
    intro g _ _ _
    simp only [List.foldl_nil, List.map_nil]
    rw [List.map_congr_left (fun e _ => by simp : ∀ e ∈ g.edges,
      (if edgeTriple e ∈ ([] : List (String × String × Nat)) then
        { e with attrs := match D e.attrs with | some f => f e.attrs | none => e.attrs }
        else e) = e)]
    simp
  | cons p0 rest ih =>
    intro g hgnd hsub hlnd
    simp only [List.map_cons, List.nodup_cons] at hlnd
    obtain ⟨hl0, hlrest⟩ := hlnd
    have hp0 : p0 ∈ g.edges := hsub p0 (by simp)
    simp only [List.foldl_cons, List.map_cons]
    cases hD : D p0.attrs with
    | none =>
      rw [ih g hgnd (fun p hp => hsub p (by simp [hp])) hlrest]
      refine List.map_congr_left ?_
      intro q hq
      by_cases hqe : edgeTriple q = edgeTriple p0
      · have hqp : q = p0 := nodup_triple_eq hgnd hq hp0 hqe
        subst hqp
        simp [hD, hl0]
      · by_cases hm : edgeTriple q ∈ rest.map edgeTriple
        · rw [if_pos hm, if_pos (List.mem_cons.mpr (Or.inr hm))]
        · rw [if_neg hm, if_neg (fun hc => (List.mem_cons.mp hc).elim hqe hm)]
    | some f =>
      have hmapg : (g.updateEdge p0.src p0.tgt p0.key f).edges = g.edges.map (fun e =>
          if edgeTriple e = (p0.src, p0.tgt, p0.key) then { e with attrs := f e.attrs } else e) :=
        updateEdge_eq_map g p0.src p0.tgt p0.key f
      have htripleseq : (g.updateEdge p0.src p0.tgt p0.key f).edges.map edgeTriple
          = g.edges.map edgeTriple := by
        rw [hmapg, List.map_map]
        refine List.map_congr_left ?_
        intro e _
        simp only [Function.comp]
        by_cases hc : edgeTriple e = (p0.src, p0.tgt, p0.key)
        · rw [if_pos hc]
          simp [edgeTriple]
        · rw [if_neg hc]
      have hg2nd : ((g.updateEdge p0.src p0.tgt p0.key f).edges.map edgeTriple).Nodup := by
        rw [htripleseq]
        exact hgnd
      have hsub2 : ∀ e ∈ rest, e ∈ (g.updateEdge p0.src p0.tgt p0.key f).edges := by
        intro e he
        have heg : e ∈ g.edges := hsub e (by simp [he])
        have hne : edgeTriple e ≠ (p0.src, p0.tgt, p0.key) := by
          intro hc
          have hm := List.mem_map_of_mem edgeTriple he
          rw [hc] at hm
          exact hl0 hm
        rw [hmapg]
        have heq : (fun e2 : Edge =>
            if edgeTriple e2 = (p0.src, p0.tgt, p0.key) then
              { e2 with attrs := f e2.attrs } else e2) e = e := by
          simp only [if_neg hne]
        exact heq ▸ List.mem_map_of_mem _ heg
      rw [ih (g.updateEdge p0.src p0.tgt p0.key f) hg2nd hsub2 hlrest]
      rw [hmapg, List.map_map]
      refine List.map_congr_left ?_
      intro q hq
      simp only [Function.comp]
      by_cases hqe : edgeTriple q = edgeTriple p0
      · have hqp : q = p0 := nodup_triple_eq hgnd hq hp0 hqe
        subst hqp
        simp only [edgeTriple] at hl0 ⊢
        simp [hD, hl0]
      · rw [if_neg (show ¬(edgeTriple q = (p0.src, p0.tgt, p0.key)) from hqe)]
        by_cases hm : edgeTriple q ∈ rest.map edgeTriple
        · rw [if_pos hm, if_pos (List.mem_cons.mpr (Or.inr hm))]
        · rw [if_neg hm, if_neg (fun hc => (List.mem_cons.mp hc).elim hqe hm)]

/-- The decision `rename_entities_with_llm` takes for one node, computed from
that node's attribute bag alone: `none` when the node is skipped, otherwise
the write-back applied to the node's attributes. -/
def renameD (P : LLMProvider) (a : Attrs) : Option (Attrs → Attrs) :=
  match attrsGet a "name" with
  | some v =>
    if v.truthy then
      if P.rename_entity a ≠ "" then
        some (match v with
          | .strList l => fun live =>
              attrsSet live "name" (.strList (l.set 0 (P.rename_entity a)))
          | .str _ => fun live => attrsSet live "name" (.str (P.rename_entity a)))
      else none
    else none
  | none => none

/-- The effect of the entity-rename pass on one node's attribute bag. -/
def renameAttrs (P : LLMProvider) (a : Attrs) : Attrs :=
  match renameD P a with
  | some f => f a
  | none => a

theorem renameNodeStep_eq (P : LLMProvider) (g : Graph) (node : String × Attrs) :
    renameNodeStep P g node =
      match renameD P node.2 with
      | some f => g.updateNode node.1 f
      | none => g := by
  unfold renameNodeStep renameD
  cases hg : attrsGet node.2 "name" with
  | none => rfl
  | some v =>
    dsimp only
    by_cases ht : v.truthy = true
    · rw [if_pos ht, if_pos ht]
      by_cases hn : P.rename_entity node.2 ≠ ""
      · rw [if_pos hn, if_pos hn]
        cases v with
        | strList l => rfl
        | str s => rfl
      · rw [if_neg hn, if_neg hn]
    · rw [if_neg ht, if_neg ht]

theorem rename_entities_nodes_eq (P : LLMProvider) (G : Graph)
    (h : (G.nodes.map (fun p => p.1)).Nodup) :
    (rename_entities_with_llm P G).nodes
      = G.nodes.map (fun q => (q.1, renameAttrs P q.2)) := by
  unfold rename_entities_with_llm
  have hfun : renameNodeStep P
      = (fun (g : Graph) (node : String × Attrs) =>
          match renameD P node.2 with
          | some f => g.updateNode node.1 f
          | none => g) :=
    funext (fun g => funext (fun node => renameNodeStep_eq P g node))
  rw [hfun]
  rw [foldl_nodeUpdate_eq (renameD P) G.nodes G h (fun p hp => hp) h]
  refine List.map_congr_left ?_
  intro q hq
  rw [if_pos (List.mem_map_of_mem (fun p => p.1) hq)]
  rfl

theorem renameAttrs_of_fail (P : LLMProvider) (a : Attrs)
    (h : P.rename_entity_raw a = none) : renameAttrs P a = a := by
  have hempty : P.rename_entity a = "" := by
    simp [LLMProvider.rename_entity, stripResult, h]
  unfold renameAttrs renameD
  cases hg : attrsGet a "name" with
  | none => rfl
  | some v =>
    dsimp only
    by_cases ht : v.truthy = true
    · rw [if_pos ht, if_neg (by simp [hempty])]
    · rw [if_neg ht]

/-- The decision `rename_relations_with_llm` takes for one edge. -/
def renameRelD (P : LLMProvider) (a : Attrs) : Option (Attrs → Attrs) :=
  if ((attrsGet a "type").map AttrVal.truthy).getD false then
    if P.rename_relation a ≠ "" then
      some (fun live => attrsSet live "type" (.str (P.rename_relation a)))
    else none
  else none

/-- The effect of the relation-rename pass on one edge's attribute bag. -/
def renameRelAttrs (P : LLMProvider) (a : Attrs) : Attrs :=
  match renameRelD P a with
  | some f => f a
  | none => a

theorem renameEdgeStep_eq (P : LLMProvider) (g : Graph) (e : Edge) :
    renameEdgeStep P g e =
      match renameRelD P e.attrs with
      | some f => g.updateEdge e.src e.tgt e.key f
      | none => g := by
  unfold renameEdgeStep renameRelD
  dsimp only
  by_cases ht : ((attrsGet e.attrs "type").map AttrVal.truthy).getD false = true
  · rw [if_pos ht, if_pos ht]
    by_cases hn : P.rename_relation e.attrs ≠ ""
    · rw [if_pos hn, if_pos hn]
    · rw [if_neg hn, if_neg hn]
  · rw [if_neg ht, if_neg ht]

theorem rename_relations_edges_eq (P : LLMProvider) (G : Graph)
    (h : (G.edges.map edgeTriple).Nodup) :
    (rename_relations_with_llm P G).edges
      = G.edges.map (fun e => { e with attrs := renameRelAttrs P e.attrs }) := by
  unfold rename_relations_with_llm
  have hfun : renameEdgeStep P
      = (fun (g : Graph) (e : Edge) =>
          match renameRelD P e.attrs with
          | some f => g.updateEdge e.src e.tgt e.key f
          | none => g) :=
    funext (fun g => funext (fun e => renameEdgeStep_eq P g e))
  rw [hfun]
  rw [foldl_edgeUpdate_eq (renameRelD P) G.edges G h (fun e he => he) h]
  refine List.map_congr_left ?_
  intro e he
  rw [if_pos (List.mem_map_of_mem edgeTriple he)]
  rfl

theorem renameRelAttrs_of_fail (P : LLMProvider) (a : Attrs)
    (h : P.rename_relation_raw a = none) : renameRelAttrs P a = a := by
  have hempty : P.rename_relation a = "" := by
    simp [LLMProvider.rename_relation, stripResult, h]
  unfold renameRelAttrs renameRelD
  by_cases ht : ((attrsGet a "type").map AttrVal.truthy).getD false = true
  · rw [if_pos ht, if_neg (by simp [hempty])]
  · rw [if_neg ht]

theorem updateNode_updateNode (G : Graph) (id : String) (f h : Attrs → Attrs) :
    (G.updateNode id f).updateNode id h = G.updateNode id (fun a => h (f a)) := by
  simp only [Graph.updateNode, List.map_map]
  congr 1
  refine List.map_congr_left ?_
  intro p _
  simp only [Function.comp]
  by_cases hp : p.1 = id
  · simp [hp]
  · simp [hp]

/-- The decision `perturb_entities_with_llm` takes for one node. -/
def perturbD (P : LLMProvider) (un ud : Bool) (a : Attrs) : Option (Attrs → Attrs) :=
  if attrsGet a "type" = some (.str "RandomEntity") then none
  else if (a.filter (fun p => p.1 ≠ "id")).isEmpty then none
  else
    match attrsGet a "name" with
    | none => none
    | some name_value =>
      if ¬ name_value.truthy then none
      else if P.synthesize_description a ≠ "" then
        match ud, un with
        | true, true => some (fun live =>
            attrsSet (attrsSet live "description" (.strList [P.synthesize_description a]))
              "name" (.strList [P.synthesize_description a]))
        | true, false => some (fun live =>
            attrsSet live "description" (.strList [P.synthesize_description a]))
        | false, true => some (fun live =>
            attrsSet live "name" (.strList [P.synthesize_description a]))
        | false, false => none
      else none

/-- The effect of the description-synthesis pass on one node's attributes. -/
def perturbAttrs (P : LLMProvider) (un ud : Bool) (a : Attrs) : Attrs :=
  match perturbD P un ud a with
  | some f => f a
  | none => a

theorem perturbNodeStep_eq (P : LLMProvider) (un ud : Bool) (g : Graph)
    (node : String × Attrs) :
    perturbNodeStep P un ud g node =
      match perturbD P un ud node.2 with
      | some f => g.updateNode node.1 f
      | none => g := by
  unfold perturbNodeStep perturbD
  dsimp only
  by_cases h1 : attrsGet node.2 "type" = some (.str "RandomEntity")
  · rw [if_pos h1, if_pos h1]
  · rw [if_neg h1, if_neg h1]
    by_cases h2 : (node.2.filter (fun p => p.1 ≠ "id")).isEmpty = true
    · rw [if_pos h2, if_pos h2]
    · rw [if_neg h2, if_neg h2]
      cases hname : attrsGet node.2 "name" with
      | none => rfl
      | some nv =>
        dsimp only
        by_cases h3 : ¬ nv.truthy = true
        · rw [if_pos h3, if_pos h3]
        · rw [if_neg h3, if_neg h3]
          by_cases h4 : P.synthesize_description node.2 ≠ ""
          · rw [if_pos h4, if_pos h4]
            cases ud <;> cases un
            · rfl
            · rfl
            · rfl
            · exact updateNode_updateNode g node.1
                (fun a => attrsSet a "description" (.strList [P.synthesize_description node.2]))
                (fun a => attrsSet a "name" (.strList [P.synthesize_description node.2]))
          · rw [if_neg h4, if_neg h4]

theorem perturb_entities_nodes_eq (P : LLMProvider) (un ud : Bool) (G : Graph)
    (h : (G.nodes.map (fun p => p.1)).Nodup) :
    (perturb_entities_with_llm P un ud G).nodes
      = G.nodes.map (fun q => (q.1, perturbAttrs P un ud q.2)) := by
  unfold perturb_entities_with_llm
  have hfun : perturbNodeStep P un ud
      = (fun (g : Graph) (node : String × Attrs) =>
          match perturbD P un ud node.2 with
          | some f => g.updateNode node.1 f
          | none => g) :=
    funext (fun g => funext (fun node => perturbNodeStep_eq P un ud g node))
  rw [hfun]
  rw [foldl_nodeUpdate_eq (perturbD P un ud) G.nodes G h (fun p hp => hp) h]
  refine List.map_congr_left ?_
  intro q hq
  rw [if_pos (List.mem_map_of_mem (fun p => p.1) hq)]
  rfl

theorem perturbAttrs_of_fail (P : LLMProvider) (un ud : Bool) (a : Attrs)
    (h : P.synthesize_description_raw a = none) : perturbAttrs P un ud a = a := by
  have hempty : P.synthesize_description a = "" := by
    simp [LLMProvider.synthesize_description, stripResult, h]
  unfold perturbAttrs perturbD
  by_cases h1 : attrsGet a "type" = some (.str "RandomEntity")
  · rw [if_pos h1]
  · rw [if_neg h1]
    by_cases h2 : (a.filter (fun p => p.1 ≠ "id")).isEmpty = true
    · rw [if_pos h2]
    · rw [if_neg h2]
      cases hname : attrsGet a "name" with
      | none => rfl
      | some nv =>
        dsimp only
        by_cases h3 : ¬ nv.truthy = true
        · rw [if_pos h3]
        · rw [if_neg h3, if_neg (by simp [hempty])]

/-! ### The structural phase ignores the content-perturbation configuration -/

theorem perturbStructural_congr (cfg cfg2 : Config) (kg : KGJson) (s : Nat)
    (h1 : cfg.remove_entities = cfg2.remove_entities)
    (h2 : cfg.add_entities = cfg2.add_entities)
    (h3 : cfg.remove_edges = cfg2.remove_edges)
    (h4 : cfg.add_edges = cfg2.add_edges) :
    perturbStructural cfg kg s = perturbStructural cfg2 kg s := by
  unfold perturbStructural
  rw [h1, h2, h3, h4]

/-! ### Concrete sample inputs used by the witnesses -/

/-- A provider whose every call fails (models a permanently erroring
backend: `generate_content` catches the exception and returns `None`). -/
def noLLM : LLMProvider :=
  { rename_entity_raw := fun _ => none,
    rename_relation_raw := fun _ => none,
    synthesize_description_raw := fun _ => none }

/-- A provider that fails exactly on the entity named `e1` and succeeds
elsewhere. -/
def failOnE1 : LLMProvider :=
  { rename_entity_raw := fun a =>
      if attrsGet a "name" = some (.str "e1") then none else some "N",
    rename_relation_raw := fun _ => none,
    synthesize_description_raw := fun _ => none }

def entJ (i : String) : EntityJson := { id := some i, attrs := [("name", .str i)] }

def relJ (s t : String) : RelationJson :=
  { source := some s, target := some t, type := some (.str "r"), attrs := [] }

def kg2 : KGJson :=
  { entities := some [entJ "e1", entJ "e2"], relations := some [relJ "e1" "e2"] }

def kg3 : KGJson :=
  { entities := some [entJ "e1", entJ "e2", entJ "e3"],
    relations := some [relJ "e1" "e2", relJ "e2" "e3"] }

/-- A one-entity graph whose identifier `e2` does not occupy `1..1`. -/
def kgE2 : KGJson := { entities := some [entJ "e2"], relations := some [] }

/-- An input object with no `entities` and no `relations` key. -/
def kgNoKeys : KGJson := { entities := none, relations := none }

/-- An input object whose single entity lacks the `id` field. -/
def kgNoId : KGJson := { entities := some [{ id := none, attrs := [] }], relations := none }

def g2 : Graph := { nodes := [("e1", []), ("e2", [])], edges := [] }

def g2n : Graph :=
  { nodes := [("e1", [("name", .str "e1")]), ("e2", [("name", .str "e2")])], edges := [] }

def g3 : Graph :=
  { nodes := [("e1", []), ("e2", []), ("e3", [])],
    edges := [{ src := "e1", tgt := "e2", key := 0, attrs := [("type", .str "r")] },
              { src := "e2", tgt := "e3", key := 0, attrs := [("type", .str "r")] }] }

/-- The graph produced by `add_random_edges 7 g2 2`. -/
def g2Added : Graph :=
  { nodes := [("e1", []), ("e2", [])],
    edges := [{ src := "e1", tgt := "e2", key := 0, attrs := [("type", .str "randomRelation")] },
              { src := "e1", tgt := "e2", key := 1, attrs := [("type", .str "randomRelation")] }] }

/-! ### The claims -/

/-- C1: REFUTED.  The claim says the mapping's key set is exactly the
original entity identifiers minus the removed ones, with no synthetic
add-entities identifier among the keys.  In the code,
`add_random_entities` returns `{None: new_id}`, so for `n ≥ 2` only the
LAST synthetic identifier reaches `added_entities`; the earlier ones are
treated as surviving entities by `reassign_entity_ids` and become mapping
keys.  Concretely: on the 3-entity graph `kg3` with `add_entities = 2`,
the synthetic identifier `rand_1` appears as a mapping key even though it
is not an original entity identifier. -/
theorem C1_mapping_keys :
    (perturb { add_entities := 2 } noLLM kg3 0).map (fun r => r.2.map (fun p => p.1))
      = .ok ["e1", "e2", "e3", "rand_1"] ∧
    "rand_1" ∉ (kg3.entities.getD []).filterMap (fun e => e.id) :=
  ⟨rfl, by decide⟩

/-- C6: CONFIRMED.  Requesting removal of more entities (resp. edges) than
exist is not an error: `remove_random_entities` removes exactly
`min n k` distinct entities and `remove_random_edges` removes exactly
`min n m` edges (both operators are total, clamping via `min`). -/
theorem C6_clamping (s : Nat) (G : Graph) (n m : Nat) (h : G.nodeIds.Nodup) :
    (remove_random_entities s G n).1.Nodup ∧
    (remove_random_entities s G n).1.length = min n G.nodes.length ∧
    (∀ x ∈ (remove_random_entities s G n).1, x ∈ G.nodeIds) ∧
    (remove_random_entities s G n).2.1.nodes.length + min n G.nodes.length = G.nodes.length ∧
    (remove_random_edges s G m).1.edges.length + min m G.edges.length = G.edges.length := by
  obtain ⟨h1, h2, h3, _, h5⟩ := remove_random_entities_spec s G n h
  exact ⟨h1, h2, h3, h5, remove_random_edges_length s G m⟩

/-- Witness for C6 at a concrete input: the 3-node 2-edge graph `g3` with
removal requests exceeding both counts. -/
theorem C6_clamping_witness :
    g3.nodeIds.Nodup ∧
    ((remove_random_entities 0 g3 5).1.length = min 5 g3.nodes.length ∧
     (remove_random_edges 0 g3 7).1.edges.length + min 7 g3.edges.length = g3.edges.length) :=
  ⟨by decide, (C6_clamping 0 g3 5 7 (by decide)).2.1,
    (C6_clamping 0 g3 5 7 (by decide)).2.2.2.2⟩

/-- C8: CONFIRMED.  Whenever `add_random_edges` succeeds (it samples two
nodes without replacement, so it errors on graphs with fewer than two
nodes), every edge of the result is either an edge of the input graph or a
new edge whose source and target are two DISTINCT existing entities: no
self-loop is ever created. -/
theorem C8_no_self_loops (s : Nat) (G : Graph) (n : Nat) (G2 : Graph) (s2 : Nat)
    (h : add_random_edges s G n = .ok (G2, s2)) (hnd : G.nodeIds.Nodup) :
    ∀ e ∈ G2.edges, e ∈ G.edges ∨
      (e.src ≠ e.tgt ∧ e.src ∈ G.nodeIds ∧ e.tgt ∈ G.nodeIds) :=
  add_random_edges_mem s G n G2 s2 h hnd

/-- Witness for C8 at a concrete input: `add_edges = 2` on the 2-entity
graph `g2` (seed 7) succeeds and every resulting edge is a non-self-loop
between the two entities. -/
theorem C8_no_self_loops_witness :
    ({ src := "e1", tgt := "e2", key := 0,
       attrs := [("type", .str "randomRelation")] } : Edge) ∈ g2.edges ∨
    ("e1" ≠ "e2" ∧ "e1" ∈ g2.nodeIds ∧ "e2" ∈ g2.nodeIds) :=
  C8_no_self_loops 7 g2 2 g2Added 1486001571 rfl (by decide)
    { src := "e1", tgt := "e2", key := 0, attrs := [("type", .str "randomRelation")] }
    (by simp [g2Added])

/-- The internal graph `json_to_networkx` builds from `kg3`. -/
def g3n : Graph :=
  { nodes := [("e1", [("name", .str "e1")]), ("e2", [("name", .str "e2")]),
              ("e3", [("name", .str "e3")])],
    edges := [{ src := "e1", tgt := "e2", key := 0, attrs := [("type", .str "r")] },
              { src := "e2", tgt := "e3", key := 0, attrs := [("type", .str "r")] }] }

/-- Output of `perturb {} noLLM kg2 0`. -/
def kg2out : OutKG :=
  { entities := [{ id := "e3", attrs := [("name", .str "e1")] },
                 { id := "e4", attrs := [("name", .str "e2")] }],
    relations := [{ source := "e3", target := "e4", attrs := [("type", .str "r")] }] }

/-- Output of `perturb { remove_entities := 1 } noLLM kg3 0`. -/
def kg3out : OutKG :=
  { entities := [{ id := "e4", attrs := [("name", .str "e2")] },
                 { id := "e5", attrs := [("name", .str "e3")] }],
    relations := [{ source := "e4", target := "e5", attrs := [("type", .str "r")] }] }

/-- C2: CONFIRMED.  Every relation of the output graph has both its source
and its target resolving to an entity present in the output: removal drops
incident edges, and the edge re-add loop of `reassign_entity_ids` keeps an
edge only if both rewritten endpoints are nodes of the graph. -/
theorem C2_no_dangling (cfg : Config) (P : LLMProvider) (kg : KGJson) (s : Nat)
    (out : OutKG) (m : List (String × String))
    (h : perturb cfg P kg s = .ok (out, m)) :
    ∀ r ∈ out.relations,
      (∃ ent ∈ out.entities, ent.id = r.source) ∧
      (∃ ent ∈ out.entities, ent.id = r.target) := by
  obtain ⟨Gs, G7, hstr, hout, hse⟩ := perturb_inversion cfg P kg s out m h
  obtain ⟨G0, rem, add, G4, hj, hwf4, hG, hm, _, _⟩ :=
    perturbStructural_inversion cfg kg s Gs m hstr
  have hGs_wf : Gs.wf := by
    rw [hG]
    exact wf_reassign G4 rem add G0.nodes.length hwf4
  have hG7c : G7.closed := hse.2.2.2 hGs_wf.2.2
  rw [hout]
  exact out_closed G7 hG7c

/-- Witness for C2 at a concrete input: `perturb {} noLLM kg2 0` succeeds
and its single relation's endpoints are output entities. -/
theorem C2_no_dangling_witness :
    (∃ ent ∈ kg2out.entities, ent.id = "e3") ∧
    (∃ ent ∈ kg2out.entities, ent.id = "e4") :=
  C2_no_dangling {} noLLM kg2 0 kg2out [("e1", "e3"), ("e2", "e4")] rfl
    { source := "e3", target := "e4", attrs := [("type", .str "r")] }
    (by simp [kg2out])

/-- C4: CORRECTED.  As stated ("for every input graph") the count equation
is false: `reassign_entity_ids` silently loses entities when the input
identifiers do not follow the `e1..ek` convention (see the counterexample).
Amended: when every identifier of the parsed input graph is `e i` with
`1 ≤ i ≤ k` (`k` the original entity count), the output entity count
satisfies `|out| + min(remove_entities, k) = k + add_entities`; moreover
identifier reassignment itself preserves the node count of any well-formed
graph whose identifiers are convention-following or synthetic (`rand_j`). -/
theorem C4_entity_count (cfg : Config) (P : LLMProvider) (kg : KGJson) (s : Nat)
    (G0 : Graph) (out : OutKG) (m : List (String × String))
    (hj : json_to_networkx kg = .ok G0)
    (hconv : ∀ id ∈ G0.nodeIds, ∃ i, 1 ≤ i ∧ i ≤ G0.nodes.length ∧ id = eId i)
    (hp : perturb cfg P kg s = .ok (out, m)) :
    (out.entities.length + min cfg.remove_entities G0.nodes.length
      = G0.nodes.length + cfg.add_entities) ∧
    (∀ (H : Graph) (rem2 add2 : List String) (k : Nat), H.wf →
      (∀ id ∈ H.nodeIds, (∃ i, 1 ≤ i ∧ i ≤ k ∧ id = eId i) ∨ ∃ j, id = randId j) →
      (reassign_entity_ids H rem2 add2 k).1.nodes.length = H.nodes.length) := by
  refine ⟨?_, fun H rem2 add2 k hw hc => reassign_count H rem2 add2 k hw hc⟩
  obtain ⟨Gs, G7, hstr, hout, hse⟩ := perturb_inversion cfg P kg s out m hp
  obtain ⟨G0b, rem, add, G4, hjb, hwf4, hG, hm, hcount, hprov⟩ :=
    perturbStructural_inversion cfg kg s Gs m hstr
  have hG0 : G0b = G0 := by
    have heq := hjb.symm.trans hj
    injection heq
  subst hG0
  have hconv4 : ∀ id ∈ G4.nodeIds,
      (∃ i, 1 ≤ i ∧ i ≤ G0b.nodes.length ∧ id = eId i) ∨ ∃ j, id = randId j := by
    intro id hid
    rcases hprov id hid with hin | ⟨j, _, hj2⟩
    · exact Or.inl (hconv id hin)
    · exact Or.inr ⟨j, hj2⟩
  have hlen := reassign_count G4 rem add G0b.nodes.length hwf4 hconv4
  have h7 : out.entities.length = G7.nodes.length := by
    rw [hout]
    exact out_entities_len G7
  have hG7Gs : G7.nodes.length = Gs.nodes.length := hse.2.2.1
  have hGsl : Gs.nodes.length = G4.nodes.length := by
    rw [hG]
    exact hlen
  omega

/-- Witness for C4 at a concrete input: `remove_entities = 1` on the
convention-following 3-entity graph `kg3` gives 2 output entities, and
2 + min 1 3 = 3 + 0. -/
theorem C4_entity_count_witness :
    kg3out.entities.length + min 1 g3n.nodes.length = g3n.nodes.length + 0 :=
  (C4_entity_count { remove_entities := 1 } noLLM kg3 0 g3n kg3out
    [("e2", "e4"), ("e3", "e5")] rfl
    (by
      intro id hid
      simp only [g3n, Graph.nodeIds, List.map_cons, List.map_nil, List.mem_cons,
        List.not_mem_nil, or_false] at hid
      rcases hid with rfl | rfl | rfl
      · exact ⟨1, by omega, by simp [g3n], rfl⟩
      · exact ⟨2, by omega, by simp [g3n], rfl⟩
      · exact ⟨3, by omega, by simp [g3n], rfl⟩)
    rfl).1

/-- Counterexample to C4 as stated: the one-entity input whose identifier
is `e2` (legal JSON, but off-convention).  `reassign_entity_ids` maps
`e2 ↦ e2`, adds the "new" node and then removes it, so the output has 0
entities while the claimed equation predicts 1 − 0 + 0 = 1. -/
theorem C4_entity_count_counterexample :
    (perturb {} noLLM kgE2 0).map (fun r => r.1.entities.length) = .ok 0 ∧
    (json_to_networkx kgE2).map (fun G => G.nodes.length) = .ok 1 :=
  ⟨rfl, rfl⟩

/-- C5: CONFIRMED.  Two successful runs on the same input with the same
seed whose configurations agree on the four structural counts — the
content-pass flags and the LLM providers may differ arbitrarily — produce
the same entity identifier list, the same relation endpoint list, and the
same entity mapping.  In particular one fixed run is reproducible, and the
structural output is independent of whether content perturbation is
enabled. -/
theorem C5_structural_determinism (cfg cfg2 : Config) (P P2 : LLMProvider)
    (kg : KGJson) (s : Nat) (out out2 : OutKG) (m m2 : List (String × String))
    (h1 : cfg.remove_entities = cfg2.remove_entities)
    (h2 : cfg.add_entities = cfg2.add_entities)
    (h3 : cfg.remove_edges = cfg2.remove_edges)
    (h4 : cfg.add_edges = cfg2.add_edges)
    (hp : perturb cfg P kg s = .ok (out, m))
    (hp2 : perturb cfg2 P2 kg s = .ok (out2, m2)) :
    out.entities.map (fun e => e.id) = out2.entities.map (fun e => e.id) ∧
    out.relations.map (fun r => (r.source, r.target))
      = out2.relations.map (fun r => (r.source, r.target)) ∧
    m = m2 := by
  obtain ⟨Gs, G7, hstr, hout, hse⟩ := perturb_inversion cfg P kg s out m hp
  obtain ⟨Gs2, G72, hstr2, hout2, hse2⟩ := perturb_inversion cfg2 P2 kg s out2 m2 hp2
  have hcong := perturbStructural_congr cfg cfg2 kg s h1 h2 h3 h4
  have heq : (Except.ok (Gs, m) : Except String (Graph × List (String × String)))
      = .ok (Gs2, m2) := hstr.symm.trans (hcong.trans hstr2)
  simp only [Except.ok.injEq, Prod.mk.injEq] at heq
  obtain ⟨hGseq, hmeq⟩ := heq
  refine ⟨?_, ?_, hmeq⟩
  · rw [hout, hout2, out_entities_ids, out_entities_ids, hse.1, hse2.1, hGseq]
  · rw [hout, hout2, out_rel_pairs, out_rel_pairs, hse.2.1, hse2.2.1, hGseq]

/-- Witness for C5 at a concrete input: a run of `perturb` on `kg2` with
all three content passes enabled and a run with none agree on identifiers,
endpoints and mapping. -/
theorem C5_structural_determinism_witness :
    kg2out.entities.map (fun e => e.id) = kg2out.entities.map (fun e => e.id) ∧
    kg2out.relations.map (fun r => (r.source, r.target))
      = kg2out.relations.map (fun r => (r.source, r.target)) ∧
    ([("e1", "e3"), ("e2", "e4")] : List (String × String)) = [("e1", "e3"), ("e2", "e4")] :=
  C5_structural_determinism
    { llm_rename_entities := true, llm_rename_relations := true, llm_perturb_entities := true }
    {} noLLM noLLM kg2 0
    kg2out kg2out [("e1", "e3"), ("e2", "e4")] [("e1", "e3"), ("e2", "e4")]
    rfl rfl rfl rfl (by rfl) (by rfl)

/-- If the entity fold of `json_to_networkx` succeeds, every entity object
carries an `id` field. -/
theorem entStep_foldlM_ok (ents : List EntityJson) (g G : Graph)
    (h : ents.foldlM
      (fun (g : Graph) ent =>
        match ent.id with
        | none => Except.error "KeyError: id"
        | some node_id => Except.ok (g.addNode node_id ent.attrs)) g = .ok G) :
    ∀ ent ∈ ents, ent.id ≠ none := by
  induction ents generalizing g with
  | nil => intro ent hmem; cases hmem
  | cons e t ih =>
    intro ent hmem
    rw [List.foldlM_cons] at h
    cases he : e.id with
    | none =>
      rw [he] at h
      simp only [bind, Except.bind] at h
      cases h
    | some nid =>
      rw [he] at h
      simp only [bind, Except.bind] at h
      rcases List.mem_cons.mp hmem with rfl | hmem2
      · rw [he]
        intro hc
        cases hc
      · exact ih _ h ent hmem2

theorem json_to_networkx_entities_id (kg : KGJson) (G : Graph)
    (h : json_to_networkx kg = .ok G) :
    ∀ ent ∈ kg.entities.getD [], ent.id ≠ none := by
  simp only [json_to_networkx, bind, Except.bind] at h
  cases h1 : (kg.entities.getD []).foldlM
      (fun (g : Graph) ent =>
        match ent.id with
        | none => Except.error "KeyError: id"
        | some node_id => Except.ok (g.addNode node_id ent.attrs))
      { nodes := [], edges := [] } with
  | error e => rw [h1] at h; cases h
  | ok G1 => exact entStep_foldlM_ok _ _ _ h1

/-- C7: CORRECTED.  As stated the claim is false on two counts: a missing
`entities` or `relations` key is NOT an error (`kg_json.get(key, [])`
defaults to the empty list, see the counterexample), and off-convention
entity identifiers are never validated (the pipeline proceeds and may
corrupt the graph, see the C4 counterexample).  Amended: only a missing
field inside an object is fatal — an entity without an `id` key (likewise
a relation without `source`/`target`) raises `KeyError` during conversion,
before any mutation, so no perturbed graph is ever produced from such
input; an input without `entities`/`relations` keys is processed as an
empty collection. -/
theorem C7_malformed_input (cfg : Config) (P : LLMProvider) (kg : KGJson) (s : Nat) :
    (∀ ents ent, kg.entities = some ents → ent ∈ ents → ent.id = none →
      ∀ out m, perturb cfg P kg s ≠ .ok (out, m)) ∧
    perturb {} noLLM kgNoKeys 0 = .ok ({ entities := [], relations := [] }, []) := by
  refine ⟨?_, rfl⟩
  intro ents ent hents hmem hid out m hp
  obtain ⟨Gs, G7, hstr, _, _⟩ := perturb_inversion cfg P kg s out m hp
  obtain ⟨G0, rem, add, G4, hj, _⟩ := perturbStructural_inversion cfg kg s Gs m hstr
  exact json_to_networkx_entities_id kg G0 hj ent (by rw [hents]; simpa using hmem) hid

/-- Witness for C7 at a concrete input: the input whose single entity has
no `id` field never yields an output. -/
theorem C7_malformed_input_witness :
    kgNoId.entities = some [{ id := none, attrs := [] }] ∧
    perturb {} noLLM kgNoId 0 ≠ .ok ({ entities := [], relations := [] }, []) :=
  ⟨rfl, (C7_malformed_input {} noLLM kgNoId 0).1 [{ id := none, attrs := [] }]
    { id := none, attrs := [] } rfl (by simp) rfl { entities := [], relations := [] } []⟩

/-- Counterexample to C7 as stated: an input object lacking BOTH the
`entities` and the `relations` key is not rejected — `perturb` succeeds
and returns an empty graph. -/
theorem C7_malformed_input_counterexample :
    perturb {} noLLM { entities := none, relations := none } 0
      = .ok ({ entities := [], relations := [] }, []) := rfl

/-- C9: CONFIRMED.  The entity mapping returned by a successful run is
exactly the one computed by the structural phase (conversion, the four
mutation operators, identifier reassignment) — the content passes, which
run afterwards, cannot touch it — and each content pass is a pure frame
over the structure: entity renaming and description synthesis keep the
node identifier list and the edge list, relation renaming keeps the node
list and the edge (source, target, key) triples, all of them changing
attribute values only. -/
theorem C9_content_passes_frame (cfg : Config) (P : LLMProvider) (kg : KGJson)
    (s : Nat) (out : OutKG) (m : List (String × String))
    (hp : perturb cfg P kg s = .ok (out, m)) :
    (∃ Gs, perturbStructural cfg kg s = .ok (Gs, m)) ∧
    (∀ (Q : LLMProvider) (G : Graph),
      (rename_entities_with_llm Q G).nodeIds = G.nodeIds ∧
      (rename_entities_with_llm Q G).edges = G.edges ∧
      (rename_relations_with_llm Q G).nodes = G.nodes ∧
      (rename_relations_with_llm Q G).edgeTriples = G.edgeTriples ∧
      ∀ (un ud : Bool),
        (perturb_entities_with_llm Q un ud G).nodeIds = G.nodeIds ∧
        (perturb_entities_with_llm Q un ud G).edges = G.edges) := by
  obtain ⟨Gs, G7, hstr, _, _⟩ := perturb_inversion cfg P kg s out m hp
  refine ⟨⟨Gs, hstr⟩, ?_⟩
  intro Q G
  obtain ⟨h1, h2⟩ := rename_entities_struct Q G
  obtain ⟨h3, h4⟩ := rename_relations_struct Q G
  exact ⟨h1, h2, h3, h4, fun un ud => perturb_entities_struct Q un ud G⟩

/-- Witness for C9 at a concrete input: the mapping of
`perturb {} noLLM kg2 0` is produced by the structural phase, and entity
renaming on `g2` keeps the identifier list. -/
theorem C9_content_passes_frame_witness :
    (∃ Gs, perturbStructural {} kg2 0 = .ok (Gs, [("e1", "e3"), ("e2", "e4")])) ∧
    (rename_entities_with_llm noLLM g2).nodeIds = g2.nodeIds :=
  ⟨(C9_content_passes_frame {} noLLM kg2 0 kg2out [("e1", "e3"), ("e2", "e4")] rfl).1,
   ((C9_content_passes_frame {} noLLM kg2 0 kg2out
      [("e1", "e3"), ("e2", "e4")] rfl).2 noLLM g2).1⟩

/-- C10: CONFIRMED.  On a graph with distinct node identifiers and distinct
edge triples, each content pass acts POINTWISE: the result is the input
list with each item's attribute bag transformed independently of every
other item (`renameAttrs`, `renameRelAttrs`, `perturbAttrs`), so one
item's outcome never aborts the pass or affects another item; and when the
external call for an item fails (the raw result is `None`), that item's
transformation is the identity — the item is skipped unchanged. -/
theorem C10_item_failure_tolerance (P : LLMProvider) (G : Graph)
    (hn : (G.nodes.map (fun p => p.1)).Nodup)
    (ht : (G.edges.map edgeTriple).Nodup) :
    ((rename_entities_with_llm P G).nodes
      = G.nodes.map (fun q => (q.1, renameAttrs P q.2))) ∧
    ((rename_relations_with_llm P G).edges
      = G.edges.map (fun e => { e with attrs := renameRelAttrs P e.attrs })) ∧
    (∀ un ud, (perturb_entities_with_llm P un ud G).nodes
      = G.nodes.map (fun q => (q.1, perturbAttrs P un ud q.2))) ∧
    (∀ a, P.rename_entity_raw a = none → renameAttrs P a = a) ∧
    (∀ a, P.rename_relation_raw a = none → renameRelAttrs P a = a) ∧
    (∀ un ud a, P.synthesize_description_raw a = none → perturbAttrs P un ud a = a) :=
  ⟨rename_entities_nodes_eq P G hn,
   rename_relations_edges_eq P G ht,
   fun un ud => perturb_entities_nodes_eq P un ud G hn,
   fun a h => renameAttrs_of_fail P a h,
   fun a h => renameRelAttrs_of_fail P a h,
   fun un ud a h => perturbAttrs_of_fail P un ud a h⟩

/-- Witness for C10 at a concrete input: on the two-named-entity graph
`g2n` with the provider `failOnE1` that fails exactly on the entity named
`e1`, the rename pass is the pointwise map and the failing item is left
unchanged. -/
theorem C10_item_failure_tolerance_witness :
    (g2n.nodes.map (fun p => p.1)).Nodup ∧
    ((rename_entities_with_llm failOnE1 g2n).nodes
      = g2n.nodes.map (fun q => (q.1, renameAttrs failOnE1 q.2))) ∧
    renameAttrs failOnE1 [("name", .str "e1")] = [("name", .str "e1")] :=
  ⟨by decide,
   (C10_item_failure_tolerance failOnE1 g2n (by decide) (by decide)).1,
   (C10_item_failure_tolerance failOnE1 g2n (by decide) (by decide)).2.2.2.1
     [("name", .str "e1")] rfl⟩

/-- C3: CONFIRMED.  When the input identifiers follow the `e`-prefixed
convention occupying `1..n`, the values of the mapping produced by
`reassign_entity_ids` are sequential identifiers `e(n+1), e(n+2), ...`;
they therefore appear neither among the mapping's keys, nor anywhere in
the original identifier set, nor in the `rand_`-prefixed space used for
added entities. -/
theorem C3_value_disjointness (G : Graph) (rem add : List String) (n : Nat)
    (hconv : ∀ id ∈ G.nodeIds, ∃ i, 1 ≤ i ∧ i ≤ n ∧ id = eId i) :
    ∀ v ∈ (reassign_entity_ids G rem add n).2.map (fun p => p.2),
      v ∉ (reassign_entity_ids G rem add n).2.map (fun p => p.1) ∧
      v ∉ G.nodeIds ∧
      ∀ j, v ≠ randId j := by
  have hmap : (reassign_entity_ids G rem add n).2
      = mkMapping (G.nodeIds.filter
          (fun id => !(rem.contains id) && !(add.contains id))) (n + 1) := rfl
  intro v hv
  rw [hmap] at hv
  obtain ⟨p, hp, hpv⟩ := List.mem_map.mp hv
  obtain ⟨j, hj1, hj2, hj3⟩ := mkMapping_values_shape _ _ p hp
  have hvj : v = eId j := by rw [← hpv, hj3]
  have hnotG : v ∉ G.nodeIds := by
    intro hvG
    obtain ⟨i, hi1, hi2, hi3⟩ := hconv v hvG
    have : eId j = eId i := by rw [← hvj, hi3]
    have := eId_inj j i this
    omega
  refine ⟨?_, hnotG, ?_⟩
  · intro hvk
    rw [hmap, mkMapping_map_fst] at hvk
    exact hnotG (List.mem_of_mem_filter hvk)
  · intro j2 hc
    rw [hvj] at hc
    exact eId_ne_randId j j2 hc

/-- Witness for C3 at a concrete input: reassigning `g2` (identifiers
`e1`, `e2`) after removal of `e1` yields the mapping `[(e2, e3)]`, whose
value avoids the keys, the originals and the `rand_` space. -/
theorem C3_value_disjointness_witness :
    "e3" ∉ (reassign_entity_ids g2 ["e1"] [] 2).2.map (fun p => p.1) ∧
    "e3" ∉ g2.nodeIds ∧
    "e3" ≠ randId 1 := by
  have h := C3_value_disjointness g2 ["e1"] [] 2 (by
    intro id hid
    simp only [g2, Graph.nodeIds, List.map_cons, List.map_nil, List.mem_cons,
      List.not_mem_nil, or_false] at hid
    rcases hid with rfl | rfl
    · exact ⟨1, by omega, by omega, rfl⟩
    · exact ⟨2, by omega, by omega, rfl⟩) "e3" (by decide)
  exact ⟨h.1, h.2.1, h.2.2 1⟩
